import Mathlib

/-!
Verification of the RiadX-OS core subsystems: the segment-based heap
allocator with coalescing (`MemoryManager`, kernel/memory.cpp), the
priority scheduler (`ProcessManager`, kernel/process.cpp) and the linear
page-table mapper, together with the KILL path of the syscall dispatcher
(kernel/syscalls.cpp).  The C++ classes are embedded shallowly: each
method becomes a pure Lean function on an explicit state record, machine
integers become `Nat`/`Int` with explicit reduction mod 2^64 where the
C++ unsigned arithmetic can wrap, and `std::map` becomes an association
list used only through lookup/insert/erase.
-/

set_option linter.unusedVariables false

/-! ### Data model: memory -/

/-- `struct MemoryBlock` from kernel/memory.h: one contiguous span of the
arena.  `address` is the absolute start address (`void*`), `process_id`
is the C++ `int` owner id with `-1` meaning unowned. -/
structure MemoryBlock where
  address : Nat
  size : Nat
  is_free : Bool
  process_id : Int
deriving DecidableEq, Repr

/-- `struct PageTableEntry` from kernel/memory.h.  `physical_address` is a
40-bit bitfield, so every value stored into it is reduced mod `2 ^ 40`;
the remaining bitfields not touched by any modelled code are omitted. -/
structure PageTableEntry where
  physical_address : Nat
  present : Bool
  writable : Bool
  user_accessible : Bool
deriving DecidableEq, Repr

/-- `#define PAGE_SIZE 4096` (kernel/memory.h). -/
def PAGE_SIZE : Nat := 4096

/-- `#define MEMORY_POOL_SIZE (1024 * 1024 * 16)` (kernel/memory.h). -/
def MEMORY_POOL_SIZE : Nat := 1024 * 1024 * 16

/-- The fixed virtual-address base `0x1000000` used by the page mapper. -/
def VIRTUAL_BASE : Nat := 0x1000000

/-- `2 ^ 64`: modulus of the C++ 64-bit unsigned arithmetic (`size_t`,
`uint64_t`, `uintptr_t`). -/
def U64 : Nat := 2 ^ 64

/-- State of `class MemoryManager` (kernel/memory.h): the block list, the
`std::map<void*, size_t> allocated_blocks` as an association list (only
its key→value mapping is ever consulted), the pool base pointer and size,
the page table and the virtual-address counter. -/
structure MMState where
  memory_pool : Nat
  pool_size : Nat
  memory_blocks : List MemoryBlock
  allocated_blocks : List (Nat × Nat)
  page_table : List PageTableEntry
  next_virtual_address : Nat
deriving DecidableEq, Repr

/-- Lookup in the `allocated_blocks` map (`allocated_blocks.find(ptr)`). -/
def assocLookup (k : Nat) (m : List (Nat × Nat)) : Option Nat :=
  (m.find? (fun e => e.1 == k)).map (·.2)

/-- `allocated_blocks[ptr] = size`: overwrite the entry if the key is
present, otherwise add it.  (For `std::map` only the resulting key→value
mapping is observable; the entry order of this list never matters.) -/
def assocInsert (k v : Nat) (m : List (Nat × Nat)) : List (Nat × Nat) :=
  if m.any (fun e => e.1 == k) then
    m.map (fun e => if e.1 == k then (k, v) else e)
  else
    m ++ [(k, v)]

/-- `allocated_blocks.erase(it)`: remove the entry for a key. -/
def assocErase (k : Nat) : List (Nat × Nat) → List (Nat × Nat)
  | [] => []
  | e :: rest => if e.1 == k then rest else e :: assocErase k rest

/-- `size = (size + 7) & ~7` on a `size_t` (kernel/memory.cpp,
`MemoryManager::allocate`): round up to the 8-byte alignment unit,
with the 64-bit wraparound of `size + 7` made explicit. -/
def align_size (n : Nat) : Nat := (n + 7) % U64 / 8 * 8

namespace MemoryManager

/-- `MemoryManager::first_fit_allocate` (kernel/memory.cpp:486).  Scans
`memory_blocks` in table order; at the first free block with
`size ≤ block.size` it appends the split-off tail (the C++ `push_back`
puts it at the end of the vector), shrinks the found block to `size`,
marks it used and returns its address. -/
def first_fit_allocate (size : Nat) : List MemoryBlock → Option Nat × List MemoryBlock
  | [] => (none, [])
  | b :: rest =>
    if b.is_free = true ∧ size ≤ b.size then
      let tail : List MemoryBlock :=
        if size < b.size then
          [{ address := b.address + size, size := b.size - size,
             is_free := true, process_id := -1 }]
        else []
      (some b.address, { b with size := size, is_free := false } :: (rest ++ tail))
    else
      let r := first_fit_allocate size rest
      (r.1, b :: r.2)

/-- The `std::sort` call of `MemoryManager::coalesce_free_blocks`
(kernel/memory.cpp:539), comparator `a.address < b.address`; realised by
insertion sort on the reflexive closure of that comparator (any
comparison sort is an allowed implementation of `std::sort`, and on the
reachable states all addresses are distinct, determining the result). -/
def sort_blocks (bs : List MemoryBlock) : List MemoryBlock :=
  List.insertionSort (fun a b => a.address ≤ b.address) bs

/-- The merge loop of `MemoryManager::coalesce_free_blocks`
(kernel/memory.cpp:545) in cursor form: `cur` is `memory_blocks[i]` and
the list argument holds the blocks after it.  When the cursor is free,
its successor is free and the end of the cursor equals the successor's
address, the two are merged and the loop stays on the merged block
(`continue`, i.e. the cursor grows); otherwise the cursor is emitted and
the loop moves right. -/
def merge_from (cur : MemoryBlock) : List MemoryBlock → List MemoryBlock
  | [] => [cur]
  | b :: rest =>
    if cur.is_free = true ∧ b.is_free = true ∧ cur.address + cur.size = b.address then
      merge_from { cur with size := cur.size + b.size } rest
    else
      cur :: merge_from b rest

/-- The whole merge pass of `coalesce_free_blocks`: start the cursor on
the first block (an empty vector makes the C++ loop bound `size() - 1`
wrap, but the block list of an initialized manager is never empty). -/
def merge_adjacent : List MemoryBlock → List MemoryBlock
  | [] => []
  | b :: rest => merge_from b rest

/-- `MemoryManager::coalesce_free_blocks` (kernel/memory.cpp:537): sort
by address, then merge adjacent free blocks. -/
def coalesce_free_blocks (bs : List MemoryBlock) : List MemoryBlock :=
  merge_adjacent (sort_blocks bs)

/-- `MemoryManager::allocate` (kernel/memory.cpp:421): reject size 0,
align the size, run first-fit, and on success record `{address: size}`
in `allocated_blocks`. -/
def allocate (s : MMState) (n : Nat) : Option Nat × MMState :=
  if n = 0 then (none, s) else
  let req := align_size n
  let r := first_fit_allocate req s.memory_blocks
  match r.1 with
  | some a =>
      (some a, { s with memory_blocks := r.2,
                        allocated_blocks := assocInsert a req s.allocated_blocks })
  | none => (none, s)

/-- `MemoryManager::allocate_aligned` (kernel/memory.cpp:440): requires a
power-of-two alignment (`align & (align - 1) == 0`), over-allocates by
`align - 1` bytes and rounds the returned address up to the alignment
boundary (`(addr + align - 1) & ~(align - 1)`, here written as rounding
up to the next multiple, which is the same operation for a power of
two); `size_t`/`uintptr_t` wraparound is made explicit. -/
def allocate_aligned (s : MMState) (n align : Nat) : Option Nat × MMState :=
  if align = 0 ∨ align &&& (align - 1) ≠ 0 then (none, s) else
  let asize := (n + align - 1) % U64
  let r := allocate s asize
  match r.1 with
  | some addr => (some ((addr + align - 1) % U64 / align * align), r.2)
  | none => (none, r.2)

/-- Which of the three control paths of `MemoryManager::deallocate` ran:
the silent null-pointer return, the reported
"Attempting to free unallocated pointer" return, or the successful free. -/
inductive DeallocStatus where
  | nullPtr
  | invalidFree
  | freed
deriving DecidableEq, Repr

/-- The marking loop of `MemoryManager::deallocate` (kernel/memory.cpp:473):
mark the first block whose address equals `ptr` free and unowned, then
stop (`break`). -/
def markFreeFirst (ptr : Nat) : List MemoryBlock → List MemoryBlock
  | [] => []
  | b :: rest =>
    if b.address = ptr then { b with is_free := true, process_id := -1 } :: rest
    else b :: markFreeFirst ptr rest

/-- `MemoryManager::deallocate` (kernel/memory.cpp:458): null pointers
are ignored; a pointer absent from `allocated_blocks` is reported and
nothing changes; otherwise the record is erased, the matching block is
marked free and the blocks are coalesced. -/
def deallocate (s : MMState) (ptr : Nat) : DeallocStatus × MMState :=
  if ptr = 0 then (.nullPtr, s) else
  match assocLookup ptr s.allocated_blocks with
  | none => (.invalidFree, s)
  | some _ =>
      (.freed, { s with
        allocated_blocks := assocErase ptr s.allocated_blocks,
        memory_blocks := coalesce_free_blocks (markFreeFirst ptr s.memory_blocks) })

/-- The stamping loop of `MemoryManager::allocate_for_process`
(kernel/memory.cpp:583): set the owner of the first block whose address
equals `ptr`, then stop (`break`). -/
def markOwnerFirst (ptr : Nat) (pid : Int) : List MemoryBlock → List MemoryBlock
  | [] => []
  | b :: rest =>
    if b.address = ptr then { b with process_id := pid } :: rest
    else b :: markOwnerFirst ptr pid rest

/-- `MemoryManager::allocate_for_process` (kernel/memory.cpp:579):
`allocate`, then stamp the resulting block with the owner id. -/
def allocate_for_process (s : MMState) (pid : Int) (n : Nat) : Option Nat × MMState :=
  let r := allocate s n
  match r.1 with
  | some a => (some a, { r.2 with memory_blocks := markOwnerFirst a pid r.2.memory_blocks })
  | none => r

/-- `MemoryManager::deallocate_process_memory` (kernel/memory.cpp:593):
free every non-free block owned by `pid` (one pass, no `break`), then
coalesce.  Note that `allocated_blocks` is left untouched. -/
def deallocate_process_memory (s : MMState) (pid : Int) : MMState :=
  let marked := s.memory_blocks.map (fun b =>
    if b.process_id = pid ∧ b.is_free = false then
      { b with is_free := true, process_id := -1 }
    else b)
  { s with memory_blocks := coalesce_free_blocks marked }

/-- `(virtual_addr - 0x1000000) / PAGE_SIZE` on `uint64_t` operands
(kernel/memory.cpp:631,641,649), with the wraparound of the subtraction
for `virtual_addr < 0x1000000` made explicit. -/
def pageIndex (v : Nat) : Nat := (v + U64 - VIRTUAL_BASE) % U64 / PAGE_SIZE

/-- `MemoryManager::map_page` (kernel/memory.cpp:630): bounds-check the
index, then store the frame number `physical_addr >> 12` (reduced mod
`2 ^ 40` by the bitfield) and set `present`. -/
def map_page (s : MMState) (v p : Nat) : Bool × MMState :=
  let idx := pageIndex v
  match s.page_table.get? idx with
  | some e =>
      let e' := { e with physical_address := (p >>> 12) % 2 ^ 40, present := true }
      (true, { s with page_table := s.page_table.set idx e' })
  | none => (false, s)

/-- `MemoryManager::unmap_page` (kernel/memory.cpp:640): clear `present`
and the stored frame, if the index is in bounds. -/
def unmap_page (s : MMState) (v : Nat) : MMState :=
  let idx := pageIndex v
  match s.page_table.get? idx with
  | some e =>
      let e' := { e with physical_address := 0, present := false }
      { s with page_table := s.page_table.set idx e' }
  | none => s

/-- `MemoryManager::virtual_to_physical` (kernel/memory.cpp:648): 0 when
the index is out of bounds or the entry absent, otherwise
`(frame << 12) | (virtual_addr & (PAGE_SIZE - 1))`. -/
def virtual_to_physical (s : MMState) (v : Nat) : Nat :=
  match s.page_table.get? (pageIndex v) with
  | some e => if e.present then (e.physical_address <<< 12) ||| (v % PAGE_SIZE) else 0
  | none => 0

/-- `MemoryManager::allocate_virtual_page` (kernel/memory.cpp:607):
request a page-sized page-aligned block, assign the next sequential
virtual address, map it (the `map_page` result is not checked) and
return the virtual address. -/
def allocate_virtual_page (s : MMState) : Option Nat × MMState :=
  let r := allocate_aligned s PAGE_SIZE PAGE_SIZE
  match r.1 with
  | some page =>
      let v := r.2.next_virtual_address
      let s1 := { r.2 with next_virtual_address := (v + PAGE_SIZE) % U64 }
      (some v, (map_page s1 v page).2)
  | none => (none, r.2)

/-- `MemoryManager::free_virtual_page` (kernel/memory.cpp:620): translate
first; if mapped, unmap the entry and release the physical block. -/
def free_virtual_page (s : MMState) (v : Nat) : MMState :=
  let phys := virtual_to_physical s v
  if phys ≠ 0 then (deallocate (unmap_page s v) phys).2 else s

/-- `MemoryManager::get_total_memory` (kernel/memory.cpp:559). -/
def get_total_memory (s : MMState) : Nat := s.pool_size

/-- `MemoryManager::get_free_memory` (kernel/memory.cpp:563): sum of the
sizes of the free blocks. -/
def get_free_memory (s : MMState) : Nat :=
  ((s.memory_blocks.filter (fun b => b.is_free)).map MemoryBlock.size).sum

/-- `MemoryManager::get_used_memory` (kernel/memory.cpp:575):
`get_total_memory() - get_free_memory()` on `size_t`; on the reachable
states free ≤ total (proved below), so the `Nat` truncated subtraction
agrees with the C++ value. -/
def get_used_memory (s : MMState) : Nat := get_total_memory s - get_free_memory s

/-- The state right after a successful `MemoryManager::initialize()`
(kernel/memory.cpp:366): one free block spanning the whole arena, empty
allocation map, 1024 unmapped page-table entries, virtual counter at the
base.  `base` is the address `malloc` returned for the pool and `n` the
pool size (`MEMORY_POOL_SIZE` in the shipped configuration). -/
def initMM (base n : Nat) : MMState :=
  { memory_pool := base
    pool_size := n
    memory_blocks := [{ address := base, size := n, is_free := true, process_id := -1 }]
    allocated_blocks := []
    page_table := List.replicate 1024
      { physical_address := 0, present := false, writable := true, user_accessible := true }
    next_virtual_address := VIRTUAL_BASE }

end MemoryManager

/-- One observable operation on the `MemoryManager` (the operations named
by the conservation claim plus the page-mapper entry points). -/
inductive MOp where
  | alloc (n : Nat)
  | allocFor (pid : Int) (n : Nat)
  | dealloc (ptr : Nat)
  | deallocProc (pid : Int)
  | coalesceOp
  | pageAlloc
  | pageFree (v : Nat)
  | mapPageOp (v p : Nat)
  | unmapPageOp (v : Nat)
deriving DecidableEq, Repr

/-- Apply one operation to the memory state (return values discarded). -/
def applyMOp (s : MMState) : MOp → MMState
  | .alloc n => (MemoryManager.allocate s n).2
  | .allocFor pid n => (MemoryManager.allocate_for_process s pid n).2
  | .dealloc p => (MemoryManager.deallocate s p).2
  | .deallocProc pid => MemoryManager.deallocate_process_memory s pid
  | .coalesceOp => { s with memory_blocks := MemoryManager.coalesce_free_blocks s.memory_blocks }
  | .pageAlloc => (MemoryManager.allocate_virtual_page s).2
  | .pageFree v => MemoryManager.free_virtual_page s v
  | .mapPageOp v p => (MemoryManager.map_page s v p).2
  | .unmapPageOp v => MemoryManager.unmap_page s v

/-- Run a sequence of memory operations. -/
def runMOps (s : MMState) (ops : List MOp) : MMState := ops.foldl applyMOp s

/-! ### Data model: processes -/

/-- `enum ProcessState` (kernel/process.h). -/
inductive ProcessState where
  | ready
  | running
  | blocked
  | terminated
deriving DecidableEq, Repr

/-- `struct ProcessControlBlock` (kernel/process.h), restricted to the
fields read or written by the modelled operations.  `pid`, `parent_pid`
and `priority` are C++ `int`s; `should_terminate` is the atomic stop
flag.  The simulated 64KB memory region, environment map, time fields
and the thread handle play no part in any modelled observable. -/
structure ProcessControlBlock where
  pid : Int
  parent_pid : Int
  state : ProcessState
  priority : Int
  should_terminate : Bool
deriving DecidableEq, Repr

/-- State of `class ProcessManager` (kernel/process.h).  `pid_map` is not
modelled separately: the code keeps it exactly in sync with
`process_table` (both are updated together by `create_process` and
`terminate_process`), so a lookup in `pid_map` is a `find?` on the
table.  `current` holds the pid designated by the `current_process`
pointer (`none` for null); the pointer itself is never cleared when its
process is removed, so `current` may name a pid no longer in the table,
and writes through it then touch no live record. -/
structure PMState where
  process_table : List ProcessControlBlock
  next_pid : Int
  current : Option Int
  scheduler_running : Bool
deriving DecidableEq, Repr

namespace ProcessManager

/-- Lookup `pid_map.find(pid)` as a search of the (synchronised) table. -/
def findPCB (s : PMState) (pid : Int) : Option ProcessControlBlock :=
  s.process_table.find? (fun b => b.pid == pid)

/-- Update the record of one pid in place (at most one matches on every
reachable state, where pids are distinct). -/
def updatePCB (s : PMState) (pid : Int)
    (f : ProcessControlBlock → ProcessControlBlock) : PMState :=
  { s with process_table := s.process_table.map (fun b => if b.pid == pid then f b else b) }

/-- The state after the constructor plus a successful `initialize()`
(kernel/process.cpp:8,17): empty table, `next_pid = 1`, null
`current_process`, scheduler enabled. -/
def initPM : PMState :=
  { process_table := [], next_pid := 1, current := none, scheduler_running := true }

/-- `ProcessManager::create_process` (kernel/process.cpp:53) together
with `create_pcb` (kernel/process.cpp:137).  `create_pcb` always
consumes `next_pid++` and initialises the record READY with priority 1;
`load_executable` then `malloc`s the simulated memory region, and on its
failure the record is discarded and -1 returned (`loadOk` models that
environment outcome).  On success the record joins the table and the
execution unit is started (its steps are the separate `execStart` /
`execEnd` operations below).  `freshPCB` is the record `create_pcb`
builds: the fresh pid, the parent taken from the `current_process`
pointer (0 when null), state READY, priority 1, stop flag clear. -/
def freshPCB (s : PMState) : ProcessControlBlock :=
  { pid := s.next_pid
    parent_pid := match s.current with | some c => c | none => 0
    state := .ready
    priority := 1
    should_terminate := false }

def create_process (s : PMState) (loadOk : Bool) : Int × PMState :=
  let pcb : ProcessControlBlock := freshPCB s
  if loadOk then
    (s.next_pid, { s with next_pid := s.next_pid + 1,
                          process_table := s.process_table ++ [pcb] })
  else
    (-1, { s with next_pid := s.next_pid + 1 })

/-- `ProcessManager::terminate_process` (kernel/process.cpp:81): false
for an unknown pid; otherwise the stop flag and TERMINATED state are
set, the thread joined, the record cleaned up and removed from both
`pid_map` and `process_table` (so the final state change is its
removal).  `current_process` is not touched. -/
def terminate_process (s : PMState) (pid : Int) : Bool × PMState :=
  match findPCB s pid with
  | none => (false, s)
  | some _ =>
      (true, { s with process_table := s.process_table.filter (fun b => b.pid != pid) })

/-- `ProcessManager::suspend_process` (kernel/process.cpp:113): any known
pid is moved to BLOCKED, whatever its current state; only an unknown pid
yields false. -/
def suspend_process (s : PMState) (pid : Int) : Bool × PMState :=
  match findPCB s pid with
  | none => (false, s)
  | some _ => (true, updatePCB s pid (fun b => { b with state := .blocked }))

/-- `ProcessManager::resume_process` (kernel/process.cpp:125): succeeds
only when the pid is known and its state is BLOCKED, moving it to
READY. -/
def resume_process (s : PMState) (pid : Int) : Bool × PMState :=
  match findPCB s pid with
  | some b =>
      if b.state = .blocked then
        (true, updatePCB s pid (fun b => { b with state := .ready }))
      else (false, s)
  | none => (false, s)

/-- `ProcessManager::set_process_priority` (kernel/process.cpp:267). -/
def set_process_priority (s : PMState) (pid priority : Int) : PMState :=
  match findPCB s pid with
  | some _ => updatePCB s pid (fun b => { b with priority := priority })
  | none => s

/-- The scan of `ProcessManager::select_next_process`
(kernel/process.cpp:240), with the accumulator pair
`(best_process, highest_priority)` made explicit; `highest_priority`
starts at -1 and only a READY record with a strictly greater priority
replaces the current best. -/
def select_next_aux : List ProcessControlBlock → Option ProcessControlBlock → Int →
    Option ProcessControlBlock
  | [], best, _ => best
  | b :: rest, best, hp =>
      if b.state = .ready ∧ hp < b.priority then select_next_aux rest (some b) b.priority
      else select_next_aux rest best hp

/-- `ProcessManager::select_next_process` (kernel/process.cpp:240). -/
def select_next_process (s : PMState) : Option ProcessControlBlock :=
  select_next_aux s.process_table none (-1)

/-- `ProcessManager::context_switch` (kernel/process.cpp:255): the old
current record (if the pointer is non-null and still denotes a live
record) is set READY, then the new record is made current and set
RUNNING. -/
def context_switch (s : PMState) (newPid : Int) : PMState :=
  let s1 := match s.current with
    | some old => updatePCB s old (fun b => { b with state := .ready })
    | none => s
  let s2 := updatePCB s1 newPid (fun b => { b with state := .running })
  { s2 with current := some newPid }

/-- `ProcessManager::schedule` (kernel/process.cpp:231): nothing unless
the scheduler runs; select the next record; switch only if it differs
from the current one (the code compares the PCB pointers, which on the
reachable states is the same as comparing pids). -/
def schedule (s : PMState) : PMState :=
  if s.scheduler_running = false then s else
  match select_next_process s with
  | some b => if s.current = some b.pid then s else context_switch s b.pid
  | none => s

/-- `ProcessManager::send_signal` (kernel/process.cpp:294): false for an
unknown pid; signal 9 delegates to `terminate_process`, 19 to
`suspend_process`, 18 to `resume_process`; any other signal is
acknowledged with true and no state change. -/
def send_signal (s : PMState) (pid signal : Int) : Bool × PMState :=
  match findPCB s pid with
  | none => (false, s)
  | some _ =>
      if signal = 9 then terminate_process s pid
      else if signal = 19 then suspend_process s pid
      else if signal = 18 then resume_process s pid
      else (true, s)

/-- The first statement of `ProcessManager::execute_process`
(kernel/process.cpp:181): the execution unit of a just-created process
marks its own record RUNNING, unconditionally and without consulting
the scheduler. -/
def execStart (s : PMState) (pid : Int) : PMState :=
  updatePCB s pid (fun b => { b with state := .running })

/-- The final statement of `ProcessManager::execute_process`
(kernel/process.cpp:219): when the simulated work loop ends (stop flag
or random completion), the execution unit marks its record
TERMINATED; the record stays in the table and in `pid_map`. -/
def execEnd (s : PMState) (pid : Int) : PMState :=
  updatePCB s pid (fun b => { b with state := .terminated })

end ProcessManager

/-- One observable step on the `ProcessManager`: the public operations
plus the two state writes performed by each process's own execution
unit (`execute_process`). -/
inductive POp where
  | create (loadOk : Bool)
  | terminate (pid : Int)
  | suspend (pid : Int)
  | resume (pid : Int)
  | setPriority (pid priority : Int)
  | signal (pid sig : Int)
  | scheduleOp
  | execStart (pid : Int)
  | execEnd (pid : Int)
deriving DecidableEq, Repr

/-- The steps available to the scheduler itself (everything except the
asynchronous execution-unit writes). -/
def POp.isSchedulerOp : POp → Prop
  | .execStart _ => False
  | .execEnd _ => False
  | _ => True

instance (op : POp) : Decidable op.isSchedulerOp := by
  cases op <;> simp [POp.isSchedulerOp] <;> infer_instance

/-- Apply one process operation (return values discarded). -/
def applyPOp (s : PMState) : POp → PMState
  | .create ok => (ProcessManager.create_process s ok).2
  | .terminate pid => (ProcessManager.terminate_process s pid).2
  | .suspend pid => (ProcessManager.suspend_process s pid).2
  | .resume pid => (ProcessManager.resume_process s pid).2
  | .setPriority pid prio => ProcessManager.set_process_priority s pid prio
  | .signal pid sig => (ProcessManager.send_signal s pid sig).2
  | .scheduleOp => ProcessManager.schedule s
  | .execStart pid => ProcessManager.execStart s pid
  | .execEnd pid => ProcessManager.execEnd s pid

/-- Run a sequence of process operations. -/
def runPOps (s : PMState) (ops : List POp) : PMState := ops.foldl applyPOp s

/-- One step of the pid-collecting run: apply the operation and append
the returned pid to the log when it is a successful `create_process`. -/
def logStep (acc : PMState × List Int) (op : POp) : PMState × List Int :=
  match op with
  | .create ok =>
      let r := ProcessManager.create_process acc.1 ok
      (r.2, if r.1 = -1 then acc.2 else acc.2 ++ [r.1])
  | _ => (applyPOp acc.1 op, acc.2)

/-- Run a sequence of process operations, also collecting the pids
returned by the successful `create_process` calls, in call order. -/
def runPLog (s : PMState) (ops : List POp) : PMState × List Int :=
  ops.foldl logStep (s, [])

/-- Number of RUNNING records in the table. -/
def countRunning (s : PMState) : Nat :=
  (s.process_table.filter (fun b => b.state == ProcessState.running)).length

/-- `SystemCalls::sys_kill` (kernel/syscalls.cpp:149): extracts pid and
signal from the parameter block, then calls
`kernel->terminate_process(pid)` — which forwards to
`ProcessManager::terminate_process` (kernel/kernel.cpp:160) — and
returns 0 on success, -1 on failure.  The extracted signal value is
printed but takes no part in the call. -/
def sys_kill (s : PMState) (pid signal : Int) : Int × PMState :=
  let r := ProcessManager.terminate_process s pid
  (if r.1 then 0 else -1, r.2)

/-! ### Coalescing: sortedness, merging, idempotence (claim C9) -/

/-- The sort key relation of `coalesce_free_blocks`. -/
def blockLE (a b : MemoryBlock) : Prop := a.address ≤ b.address

instance : DecidableRel blockLE := fun a b => Nat.decLe a.address b.address

instance : IsTotal MemoryBlock (fun a b => a.address ≤ b.address) :=
  ⟨fun a b => Nat.le_total a.address b.address⟩

instance : IsTrans MemoryBlock (fun a b => a.address ≤ b.address) :=
  ⟨fun a b c => Nat.le_trans⟩

/-- Two adjacent blocks are unmergeable: not both free with abutting spans. -/
def noMerge (a b : MemoryBlock) : Prop :=
  ¬(a.is_free = true ∧ b.is_free = true ∧ a.address + a.size = b.address)

namespace MemoryManager

theorem merge_from_cons (cur : MemoryBlock) (rest : List MemoryBlock) :
    ∃ b' rest', merge_from cur rest = b' :: rest' ∧
      b'.address = cur.address ∧ b'.is_free = cur.is_free := by
  induction rest generalizing cur with
  | nil => exact ⟨cur, [], rfl, rfl, rfl⟩
  | cons b rest ih =>
      by_cases hc : cur.is_free = true ∧ b.is_free = true ∧
          cur.address + cur.size = b.address
      · obtain ⟨b', r', he, ha, hf⟩ := ih { cur with size := cur.size + b.size }
        exact ⟨b', r', by rw [merge_from, if_pos hc]; exact he, ha, hf⟩
      · exact ⟨cur, _, by rw [merge_from, if_neg hc], rfl, rfl⟩

theorem merge_from_mem_address (cur : MemoryBlock) (rest : List MemoryBlock) :
    ∀ x ∈ merge_from cur rest,
      x.address = cur.address ∨ ∃ y ∈ rest, x.address = y.address := by
  induction rest generalizing cur with
  | nil =>
      intro x hx
      rw [merge_from] at hx
      rcases List.mem_singleton.1 hx with h
      exact .inl (by rw [h])
  | cons b rest ih =>
      intro x hx
      by_cases hc : cur.is_free = true ∧ b.is_free = true ∧
          cur.address + cur.size = b.address
      · rw [merge_from, if_pos hc] at hx
        rcases ih _ x hx with h | ⟨y, hy, hxy⟩
        · exact .inl h
        · exact .inr ⟨y, List.mem_cons_of_mem _ hy, hxy⟩
      · rw [merge_from, if_neg hc] at hx
        rcases List.mem_cons.1 hx with h | h
        · exact .inl (by rw [h])
        · rcases ih b x h with h' | ⟨y, hy, hxy⟩
          · exact .inr ⟨b, List.mem_cons_self _ _, h'⟩
          · exact .inr ⟨y, List.mem_cons_of_mem _ hy, hxy⟩

theorem merge_from_sorted (cur : MemoryBlock) (rest : List MemoryBlock) :
    List.Sorted (fun a b => a.address ≤ b.address) (cur :: rest) →
    List.Sorted (fun a b => a.address ≤ b.address) (merge_from cur rest) := by
  induction rest generalizing cur with
  | nil => intro h; rw [merge_from]; exact List.sorted_singleton cur
  | cons b rest ih =>
      intro h
      rw [List.sorted_cons] at h
      obtain ⟨h1, h2⟩ := h
      by_cases hc : cur.is_free = true ∧ b.is_free = true ∧
          cur.address + cur.size = b.address
      · rw [merge_from, if_pos hc]
        apply ih
        rw [List.sorted_cons]
        rw [List.sorted_cons] at h2
        exact ⟨fun x hx => h1 x (List.mem_cons_of_mem _ hx), h2.2⟩
      · rw [merge_from, if_neg hc]
        rw [List.sorted_cons]
        refine ⟨fun x hx => ?_, ih b h2⟩
        rcases merge_from_mem_address b rest x hx with h' | ⟨y, hy, hxy⟩
        · rw [h']
          exact h1 b (List.mem_cons_self _ _)
        · rw [hxy]
          exact h1 y (List.mem_cons_of_mem _ hy)

theorem merge_from_chain (cur : MemoryBlock) (rest : List MemoryBlock) :
    (merge_from cur rest).Chain' noMerge := by
  induction rest generalizing cur with
  | nil => rw [merge_from]; exact List.chain'_singleton cur
  | cons b rest ih =>
      by_cases hc : cur.is_free = true ∧ b.is_free = true ∧
          cur.address + cur.size = b.address
      · rw [merge_from, if_pos hc]
        exact ih _
      · rw [merge_from, if_neg hc]
        obtain ⟨b', rest', he, ha, hf⟩ := merge_from_cons b rest
        rw [he]
        apply List.chain'_cons.2
        refine ⟨?_, he ▸ ih b⟩
        intro hcon
        exact hc ⟨hcon.1, hf ▸ hcon.2.1, ha ▸ hcon.2.2⟩

theorem merge_from_of_chain (cur : MemoryBlock) (rest : List MemoryBlock) :
    (cur :: rest).Chain' noMerge → merge_from cur rest = cur :: rest := by
  induction rest generalizing cur with
  | nil => intro _; rw [merge_from]
  | cons b rest ih =>
      intro h
      rw [List.chain'_cons] at h
      rw [merge_from, if_neg h.1, ih b h.2]

theorem merge_adjacent_sorted (l : List MemoryBlock) :
    List.Sorted (fun a b => a.address ≤ b.address) l →
    List.Sorted (fun a b => a.address ≤ b.address) (merge_adjacent l) := by
  cases l with
  | nil => intro h; exact h
  | cons b rest => exact merge_from_sorted b rest

theorem merge_adjacent_chain (l : List MemoryBlock) :
    (merge_adjacent l).Chain' noMerge := by
  cases l with
  | nil => exact List.chain'_nil
  | cons b rest => exact merge_from_chain b rest

theorem merge_adjacent_of_chain (l : List MemoryBlock) :
    l.Chain' noMerge → merge_adjacent l = l := by
  cases l with
  | nil => intro _; rfl
  | cons b rest => exact merge_from_of_chain b rest

theorem coalesce_sorted (bs : List MemoryBlock) :
    List.Sorted (fun a b => a.address ≤ b.address) (coalesce_free_blocks bs) :=
  merge_adjacent_sorted _ (List.sorted_insertionSort _ bs)

theorem coalesce_idem (bs : List MemoryBlock) :
    coalesce_free_blocks (coalesce_free_blocks bs) = coalesce_free_blocks bs := by
  have hs := coalesce_sorted bs
  show merge_adjacent (sort_blocks (coalesce_free_blocks bs)) = coalesce_free_blocks bs
  rw [show sort_blocks (coalesce_free_blocks bs) = coalesce_free_blocks bs from hs.insertionSort_eq]
  exact merge_adjacent_of_chain _ (merge_adjacent_chain _)

end MemoryManager

/-- C9: `coalesce_free_blocks()` is idempotent — calling it twice yields
the same block list as calling it once — and after one call the blocks
are sorted by base address with no two adjacent free blocks whose spans
abut.  (Proved for every block list, which covers every reachable one.) -/
theorem c9_coalesce_idempotent_sorted_noabut (bs : List MemoryBlock) :
    MemoryManager.coalesce_free_blocks (MemoryManager.coalesce_free_blocks bs) =
      MemoryManager.coalesce_free_blocks bs ∧
    List.Sorted (fun a b => a.address ≤ b.address)
      (MemoryManager.coalesce_free_blocks bs) ∧
    (MemoryManager.coalesce_free_blocks bs).Chain' noMerge :=
  ⟨MemoryManager.coalesce_idem bs, MemoryManager.coalesce_sorted bs,
    MemoryManager.merge_adjacent_chain _⟩

/-! ### Suspend / resume legality (claim C8) -/

namespace ProcessManager

theorem findPCB_of_filter_ne (s : PMState) (pid : Int) :
    findPCB { s with process_table := s.process_table.filter (fun b => b.pid != pid) } pid
      = none := by
  apply List.find?_eq_none.2
  intro b hb
  have := (List.mem_filter.1 hb).2
  simp only [bne_iff_ne, ne_eq, decide_eq_true_eq] at this
  simp [this]

end ProcessManager

/-- C8 counterexample: after `create_process` (pid 1) and one
`suspend_process(1)`, pid 1 is BLOCKED — not READY or RUNNING — yet a
second `suspend_process(1)` still returns true (and the claim requires
false for this illegal transition). -/
theorem c8_counterexample :
    ((ProcessManager.findPCB (runPOps ProcessManager.initPM [.create true, .suspend 1]) 1).map
        (fun b => b.state) = some ProcessState.blocked) ∧
    (ProcessManager.suspend_process (runPOps ProcessManager.initPM [.create true, .suspend 1])
        1).1 = true := by
  constructor
  · rfl
  · rfl

/-- C8 (amended): `suspend_process(pid)` succeeds for every pid present
in the table, moving the record to BLOCKED whatever its previous state
(including BLOCKED or TERMINATED), and fails without side effects only
for an unknown pid; `resume_process(pid)` succeeds exactly when the
target exists and is BLOCKED, moving it to READY, and every other call
returns false with no side effects. -/
theorem c8_suspend_resume_amended (s : PMState) (pid : Int) :
    ((ProcessManager.findPCB s pid).isSome = true →
        ProcessManager.suspend_process s pid =
          (true, ProcessManager.updatePCB s pid (fun b => { b with state := .blocked }))) ∧
    (ProcessManager.findPCB s pid = none →
        ProcessManager.suspend_process s pid = (false, s)) ∧
    (∀ b, ProcessManager.findPCB s pid = some b → b.state = .blocked →
        ProcessManager.resume_process s pid =
          (true, ProcessManager.updatePCB s pid (fun b => { b with state := .ready }))) ∧
    (∀ b, ProcessManager.findPCB s pid = some b → b.state ≠ .blocked →
        ProcessManager.resume_process s pid = (false, s)) ∧
    (ProcessManager.findPCB s pid = none →
        ProcessManager.resume_process s pid = (false, s)) := by
  refine ⟨?_, ?_, ?_, ?_, ?_⟩
  · intro h
    unfold ProcessManager.suspend_process
    cases hf : ProcessManager.findPCB s pid with
    | none => rw [hf] at h; cases h
    | some b => rfl
  · intro h
    unfold ProcessManager.suspend_process
    rw [h]
  · intro b hf hb
    unfold ProcessManager.resume_process
    rw [hf]
    simp [hb]
  · intro b hf hb
    unfold ProcessManager.resume_process
    rw [hf]
    simp [hb]
  · intro h
    unfold ProcessManager.resume_process
    rw [h]

/-- Witness for C8 (amended): every hypothesis exercised at concrete
states — pid 1 BLOCKED after a suspend, pid 1 READY right after
creation, pid 5 unknown. -/
theorem c8_suspend_resume_amended_witness :
    (ProcessManager.suspend_process (runPOps ProcessManager.initPM [.create true]) 1 =
      (true, ProcessManager.updatePCB (runPOps ProcessManager.initPM [.create true]) 1
        (fun b => { b with state := .blocked }))) ∧
    (ProcessManager.suspend_process (runPOps ProcessManager.initPM [.create true]) 5 =
      (false, runPOps ProcessManager.initPM [.create true])) ∧
    (ProcessManager.resume_process (runPOps ProcessManager.initPM [.create true, .suspend 1]) 1 =
      (true, ProcessManager.updatePCB (runPOps ProcessManager.initPM [.create true, .suspend 1]) 1
        (fun b => { b with state := .ready }))) ∧
    (ProcessManager.resume_process (runPOps ProcessManager.initPM [.create true]) 1 =
      (false, runPOps ProcessManager.initPM [.create true])) ∧
    (ProcessManager.resume_process (runPOps ProcessManager.initPM [.create true]) 5 =
      (false, runPOps ProcessManager.initPM [.create true])) := by
  refine ⟨?_, ?_, ?_, ?_, ?_⟩
  · exact (c8_suspend_resume_amended (runPOps ProcessManager.initPM [.create true]) 1).1
      (by decide)
  · exact (c8_suspend_resume_amended (runPOps ProcessManager.initPM [.create true]) 5).2.1
      (by decide)
  · exact (c8_suspend_resume_amended (runPOps ProcessManager.initPM
      [.create true, .suspend 1]) 1).2.2.1 ⟨1, 0, .blocked, 1, false⟩ (by decide) (by decide)
  · exact (c8_suspend_resume_amended (runPOps ProcessManager.initPM [.create true]) 1).2.2.2.1
      ⟨1, 0, .ready, 1, false⟩ (by decide) (by decide)
  · exact (c8_suspend_resume_amended (runPOps ProcessManager.initPM [.create true]) 5).2.2.2.2
      (by decide)

/-! ### The KILL syscall (claim C10) -/

/-- C10 counterexample: with one live process (pid 1), the KILL syscall
with signal 19 returns success and removes the process from the table —
it terminates instead of suspending — while
`ProcessManager::send_signal(1, 19)` itself would have left the process
in the table in state BLOCKED. -/
theorem c10_counterexample :
    ((sys_kill (runPOps ProcessManager.initPM [.create true]) 1 19).1 = 0) ∧
    (ProcessManager.findPCB (sys_kill (runPOps ProcessManager.initPM [.create true]) 1 19).2 1
      = none) ∧
    ((ProcessManager.findPCB
        (ProcessManager.send_signal (runPOps ProcessManager.initPM [.create true]) 1 19).2 1).map
        (fun b => b.state) = some ProcessState.blocked) := by
  refine ⟨rfl, rfl, rfl⟩

/-- C10 (amended): `sys_kill` ignores the signal argument and calls
`terminate_process(pid)` unconditionally — returning 0 and removing the
record for a known pid, -1 with no change for an unknown one — while
`ProcessManager::send_signal` itself (never reached from the syscall)
does implement the claimed dispatch: signal 9 terminates, 19 suspends,
18 resumes, any other signal is acknowledged with true and no state
change for a known pid, and an unknown pid yields false. -/
theorem c10_kill_amended (s : PMState) (pid sig : Int) :
    (sys_kill s pid sig = sys_kill s pid 9) ∧
    (ProcessManager.findPCB s pid = none → sys_kill s pid sig = (-1, s)) ∧
    ((ProcessManager.findPCB s pid).isSome = true →
        (sys_kill s pid sig).1 = 0 ∧
        ProcessManager.findPCB (sys_kill s pid sig).2 pid = none) ∧
    ((ProcessManager.findPCB s pid).isSome = true →
        ProcessManager.send_signal s pid 9 = ProcessManager.terminate_process s pid ∧
        ProcessManager.send_signal s pid 19 = ProcessManager.suspend_process s pid ∧
        ProcessManager.send_signal s pid 18 = ProcessManager.resume_process s pid ∧
        ∀ sg : Int, sg ≠ 9 → sg ≠ 19 → sg ≠ 18 →
          ProcessManager.send_signal s pid sg = (true, s)) ∧
    (ProcessManager.findPCB s pid = none →
        ∀ sg : Int, ProcessManager.send_signal s pid sg = (false, s)) := by
  refine ⟨rfl, ?_, ?_, ?_, ?_⟩
  · intro h
    unfold sys_kill ProcessManager.terminate_process
    rw [h]
    rfl
  · intro h
    cases hf : ProcessManager.findPCB s pid with
    | none => rw [hf] at h; cases h
    | some b =>
        constructor
        · unfold sys_kill ProcessManager.terminate_process
          rw [hf]
          rfl
        · show ProcessManager.findPCB (ProcessManager.terminate_process s pid).2 pid = none
          unfold ProcessManager.terminate_process
          rw [hf]
          exact ProcessManager.findPCB_of_filter_ne s pid
  · intro h
    cases hf : ProcessManager.findPCB s pid with
    | none => rw [hf] at h; cases h
    | some b =>
        refine ⟨?_, ?_, ?_, ?_⟩
        · unfold ProcessManager.send_signal
          rw [hf]
          rfl
        · unfold ProcessManager.send_signal
          rw [hf]
          rfl
        · unfold ProcessManager.send_signal
          rw [hf]
          rfl
        · intro sg h9 h19 h18
          unfold ProcessManager.send_signal
          rw [hf]
          simp [h9, h19, h18]
  · intro h sg
    unfold ProcessManager.send_signal
    rw [h]

/-- Witness for C10 (amended): both the known-pid and the unknown-pid
hypotheses discharged at concrete states. -/
theorem c10_kill_amended_witness :
    ((sys_kill (runPOps ProcessManager.initPM [.create true]) 1 19).1 = 0) ∧
    (sys_kill (runPOps ProcessManager.initPM [.create true]) 7 19 =
      (-1, runPOps ProcessManager.initPM [.create true])) ∧
    (ProcessManager.send_signal (runPOps ProcessManager.initPM [.create true]) 1 42 =
      (true, runPOps ProcessManager.initPM [.create true])) ∧
    (ProcessManager.send_signal (runPOps ProcessManager.initPM [.create true]) 7 9 =
      (false, runPOps ProcessManager.initPM [.create true])) := by
  refine ⟨?_, ?_, ?_, ?_⟩
  · exact ((c10_kill_amended (runPOps ProcessManager.initPM [.create true]) 1 19).2.2.1
      (by decide)).1
  · exact (c10_kill_amended (runPOps ProcessManager.initPM [.create true]) 7 19).2.1 (by decide)
  · exact ((c10_kill_amended (runPOps ProcessManager.initPM [.create true]) 1 42).2.2.2.1
      (by decide)).2.2.2 42 (by decide) (by decide) (by decide)
  · exact (c10_kill_amended (runPOps ProcessManager.initPM [.create true]) 7 0).2.2.2.2
      (by decide) 9

/-! ### Deallocation error handling (claim C7) -/

namespace MemoryManager

theorem deallocate_not_found (s : MMState) (ptr : Nat) (hp : ptr ≠ 0)
    (hl : assocLookup ptr s.allocated_blocks = none) :
    deallocate s ptr = (.invalidFree, s) := by
  unfold deallocate
  rw [if_neg hp, hl]

theorem deallocate_found (s : MMState) (ptr sz : Nat) (hp : ptr ≠ 0)
    (hl : assocLookup ptr s.allocated_blocks = some sz) :
    deallocate s ptr =
      (.freed, { s with allocated_blocks := assocErase ptr s.allocated_blocks,
                        memory_blocks := coalesce_free_blocks
                          (markFreeFirst ptr s.memory_blocks) }) := by
  unfold deallocate
  rw [if_neg hp, hl]

end MemoryManager

theorem assocLookup_erase_of_nodup (k : Nat) (m : List (Nat × Nat))
    (h : (m.map Prod.fst).Nodup) :
    assocLookup k (assocErase k m) = none ∨ assocLookup k m = none := by
  induction m with
  | nil => exact .inr rfl
  | cons e rest ih =>
      rw [List.map_cons, List.nodup_cons] at h
      by_cases hk : e.1 = k
      · left
        rw [assocErase, if_pos (beq_iff_eq.2 hk)]
        unfold assocLookup
        have hfind : rest.find? (fun x => x.1 == k) = none := by
          apply List.find?_eq_none.2
          intro x hx
          simp only [beq_iff_eq]
          intro hxk
          have hmem : k ∈ rest.map Prod.fst := by
            rw [← hxk]
            exact List.mem_map_of_mem Prod.fst hx
          rw [← hk] at hmem
          exact h.1 hmem
        rw [hfind]
        rfl
      · rcases ih h.2 with he | he
        · left
          rw [assocErase, if_neg (by simp [hk])]
          unfold assocLookup
          rw [List.find?_cons_of_neg _ (by simp [hk])]
          exact he
        · right
          unfold assocLookup
          rw [List.find?_cons_of_neg _ (by simp [hk])]
          exact he

/-- C7 counterexample: `allocate_for_process(1, 8)` hands out the pool
base, `deallocate_process_memory(1)` releases that block (the whole
arena is free again) but does not erase the allocation record, so the
subsequent `deallocate` of that address — which the claim requires to be
reported as an invalid free with the block list and the record map
unchanged — instead takes the successful-free path and erases the
record. -/
theorem c7_counterexample :
    ((runMOps (MemoryManager.initMM 1024 64) [.allocFor 1 8, .deallocProc 1]).memory_blocks.all
        (fun b => b.is_free) = true) ∧
    ((runMOps (MemoryManager.initMM 1024 64)
        [.allocFor 1 8, .deallocProc 1]).allocated_blocks = [(1024, 8)]) ∧
    ((MemoryManager.deallocate
        (runMOps (MemoryManager.initMM 1024 64) [.allocFor 1 8, .deallocProc 1]) 1024).1 =
      MemoryManager.DeallocStatus.freed) ∧
    ((MemoryManager.deallocate
        (runMOps (MemoryManager.initMM 1024 64) [.allocFor 1 8, .deallocProc 1]) 1024).1 ≠
      MemoryManager.DeallocStatus.invalidFree) ∧
    ((MemoryManager.deallocate
        (runMOps (MemoryManager.initMM 1024 64) [.allocFor 1 8, .deallocProc 1])
        1024).2.allocated_blocks = []) := by
  refine ⟨by decide, by decide, by decide, by decide, by decide⟩

/-- C7 (amended): `deallocate` is a no-op on a null address; an address
with no entry in the allocation-record map — never returned by
`allocate`, or already erased by a previous `deallocate` — is reported
as an invalid free and the whole state is left unchanged, so in
particular an immediate double `deallocate` is rejected; but
`deallocate_process_memory` frees its owner's blocks without erasing
their allocation records, so a later `deallocate` of such an address
takes the successful-free path (erasing the record, re-marking the
block and coalescing) instead of reporting an invalid free. -/
theorem c7_deallocate_amended (s : MMState) (ptr : Nat) :
    (MemoryManager.deallocate s 0 = (.nullPtr, s)) ∧
    (ptr ≠ 0 → assocLookup ptr s.allocated_blocks = none →
      MemoryManager.deallocate s ptr = (.invalidFree, s)) ∧
    (∀ sz, ptr ≠ 0 → assocLookup ptr s.allocated_blocks = some sz →
      MemoryManager.deallocate s ptr =
        (.freed, { s with allocated_blocks := assocErase ptr s.allocated_blocks,
                          memory_blocks := MemoryManager.coalesce_free_blocks
                            (MemoryManager.markFreeFirst ptr s.memory_blocks) })) ∧
    (∀ sz, ptr ≠ 0 → assocLookup ptr s.allocated_blocks = some sz →
      (s.allocated_blocks.map Prod.fst).Nodup →
      (MemoryManager.deallocate (MemoryManager.deallocate s ptr).2 ptr).1 =
        MemoryManager.DeallocStatus.invalidFree ∧
      (MemoryManager.deallocate (MemoryManager.deallocate s ptr).2 ptr).2 =
        (MemoryManager.deallocate s ptr).2) ∧
    (∀ pid, (MemoryManager.deallocate_process_memory s pid).allocated_blocks =
      s.allocated_blocks) := by
  refine ⟨?_, ?_, ?_, ?_, ?_⟩
  · unfold MemoryManager.deallocate
    rw [if_pos rfl]
  · exact fun hp hl => MemoryManager.deallocate_not_found s ptr hp hl
  · exact fun sz hp hl => MemoryManager.deallocate_found s ptr sz hp hl
  · intro sz hp hl hnd
    rcases assocLookup_erase_of_nodup ptr s.allocated_blocks hnd with he | he
    · have he' : assocLookup ptr (MemoryManager.deallocate s ptr).2.allocated_blocks = none := by
        rw [MemoryManager.deallocate_found s ptr sz hp hl]
        exact he
      rw [MemoryManager.deallocate_not_found _ ptr hp he']
      exact ⟨rfl, rfl⟩
    · rw [he] at hl
      cases hl
  · intro pid
    rfl

/-- Witness for C7 (amended): every hypothesis exercised on a concrete
arena — a never-allocated address is rejected unchanged, a live 8-byte
allocation at the pool base frees successfully, and its second free is
rejected without further change. -/
theorem c7_deallocate_amended_witness :
    (MemoryManager.deallocate (runMOps (MemoryManager.initMM 1024 64) [.alloc 8]) 4096 =
      (.invalidFree, runMOps (MemoryManager.initMM 1024 64) [.alloc 8])) ∧
    ((MemoryManager.deallocate (runMOps (MemoryManager.initMM 1024 64) [.alloc 8])
        1024).1 = MemoryManager.DeallocStatus.freed) ∧
    ((MemoryManager.deallocate
        (MemoryManager.deallocate (runMOps (MemoryManager.initMM 1024 64) [.alloc 8]) 1024).2
        1024).1 = MemoryManager.DeallocStatus.invalidFree) := by
  refine ⟨?_, ?_, ?_⟩
  · exact (c7_deallocate_amended (runMOps (MemoryManager.initMM 1024 64) [.alloc 8])
      4096).2.1 (by decide) (by decide)
  · rw [(c7_deallocate_amended (runMOps (MemoryManager.initMM 1024 64) [.alloc 8])
      1024).2.2.1 8 (by decide) (by decide)]
  · exact ((c7_deallocate_amended (runMOps (MemoryManager.initMM 1024 64) [.alloc 8])
      1024).2.2.2.1 8 (by decide) (by decide) (by decide)).1

/-! ### Scheduler selection (claim C2) -/

namespace ProcessManager

theorem select_next_aux_spec (l : List ProcessControlBlock) :
    ∀ hp : Int,
      ((∀ c ∈ l, c.state = .ready → c.priority ≤ hp) →
        ∀ best, select_next_aux l best hp = best) ∧
      ((∃ c ∈ l, c.state = .ready ∧ hp < c.priority) →
        ∀ best, ∃ pre b post,
          l = pre ++ b :: post ∧
          select_next_aux l best hp = some b ∧
          b.state = .ready ∧ hp < b.priority ∧
          (∀ c ∈ pre, c.state = .ready → c.priority < b.priority) ∧
          (∀ c ∈ post, c.state = .ready → c.priority ≤ b.priority)) := by
  induction l with
  | nil =>
      intro hp
      refine ⟨fun _ best => rfl, fun hex => absurd hex (by simp)⟩
  | cons b0 rest ih =>
      intro hp
      constructor
      · intro hall best
        have hcond : ¬(b0.state = .ready ∧ hp < b0.priority) := by
          rintro ⟨h1, h2⟩
          exact absurd (hall b0 (List.mem_cons_self _ _) h1) (not_le.2 h2)
        rw [select_next_aux, if_neg hcond]
        exact (ih hp).1 (fun c hc => hall c (List.mem_cons_of_mem _ hc)) best
      · intro hex best
        by_cases hcond : b0.state = .ready ∧ hp < b0.priority
        · rw [select_next_aux, if_pos hcond]
          by_cases hrest : ∃ c ∈ rest, c.state = .ready ∧ b0.priority < c.priority
          · obtain ⟨pre, b, post, heq, hsel, hready, hlt, hpre, hpost⟩ :=
              (ih b0.priority).2 hrest (some b0)
            refine ⟨b0 :: pre, b, post, by rw [heq, List.cons_append], hsel, hready,
              lt_trans hcond.2 hlt, ?_, hpost⟩
            intro c hc hcr
            rcases List.mem_cons.1 hc with h | h
            · rw [h]; exact hlt
            · exact hpre c h hcr
          · push_neg at hrest
            have hall : ∀ c ∈ rest, c.state = .ready → c.priority ≤ b0.priority := by
              intro c hc hcr
              exact (hrest c hc hcr)
            rw [(ih b0.priority).1 hall (some b0)]
            exact ⟨[], b0, rest, rfl, rfl, hcond.1, hcond.2, by simp, hall⟩
        · rw [select_next_aux, if_neg hcond]
          have hex' : ∃ c ∈ rest, c.state = .ready ∧ hp < c.priority := by
            obtain ⟨c, hc, hcr, hcp⟩ := hex
            rcases List.mem_cons.1 hc with h | h
            · exact absurd ⟨h ▸ hcr, h ▸ hcp⟩ hcond
            · exact ⟨c, h, hcr, hcp⟩
          obtain ⟨pre, b, post, heq, hsel, hready, hlt, hpre, hpost⟩ :=
            (ih hp).2 hex' best
          refine ⟨b0 :: pre, b, post, by rw [heq, List.cons_append], hsel, hready, hlt,
            ?_, hpost⟩
          intro c hc hcr
          rcases List.mem_cons.1 hc with h | h
          · subst h
            rcases not_and_or.1 hcond with h' | h'
            · exact absurd hcr h'
            · exact lt_of_le_of_lt (not_lt.1 h') hlt
          · exact hpre c h hcr

end ProcessManager

namespace ProcessManager

theorem context_switch_spec (s : PMState) (newPid : Int) :
    (context_switch s newPid).current = some newPid ∧
    (∀ c ∈ (context_switch s newPid).process_table, c.pid = newPid →
      c.state = .running) ∧
    (∀ old, s.current = some old → old ≠ newPid →
      ∀ c ∈ (context_switch s newPid).process_table, c.pid = old →
        c.state = .ready) := by
  refine ⟨rfl, ?_, ?_⟩
  · intro c hc hcp
    unfold context_switch updatePCB at hc
    obtain ⟨x, hx, hfx⟩ := List.mem_map.1 hc
    by_cases hxp : x.pid = newPid
    · rw [if_pos (beq_iff_eq.2 hxp)] at hfx
      rw [← hfx]
    · rw [if_neg (by simpa using hxp)] at hfx
      rw [← hfx] at hcp
      exact absurd hcp hxp
  · intro old hold hne c hc hcp
    unfold context_switch updatePCB at hc
    rw [hold] at hc
    obtain ⟨x, hx, hfx⟩ := List.mem_map.1 hc
    obtain ⟨y, hy, hgy⟩ := List.mem_map.1 hx
    by_cases hxp : x.pid = newPid
    · rw [if_pos (beq_iff_eq.2 hxp)] at hfx
      rw [← hfx] at hcp
      exact absurd (hcp.symm.trans hxp) hne
    · rw [if_neg (by simpa using hxp)] at hfx
      subst hfx
      by_cases hyp : y.pid = old
      · rw [if_pos (beq_iff_eq.2 hyp)] at hgy
        rw [← hgy]
      · rw [if_neg (by simpa using hyp)] at hgy
        subst hgy
        exact absurd hcp hyp

end ProcessManager

/-- The scenario state of C2: two READY records, pid 1 with priority 5
and pid 2 with priority 10, nothing current. -/
def c2ScenarioState : PMState :=
  { process_table :=
      [{ pid := 1, parent_pid := 0, state := .ready, priority := 5, should_terminate := false },
       { pid := 2, parent_pid := 0, state := .ready, priority := 10, should_terminate := false }],
    next_pid := 3, current := none, scheduler_running := true }

/-- C2: when the scheduler is enabled and some READY record has a
non-negative priority (true of every record the program ever builds:
creation assigns priority 1 and no caller passes a negative priority),
`select_next_process` returns the first READY record of maximal
priority in table order — every READY record before it is strictly
lower, every READY record anywhere is no higher — and when that record
differs from the current one, `schedule()` context-switches: the
selected record becomes RUNNING and current, and the old current record
moves to READY.  In particular, on the two-record scenario with
priorities 5 and 10, the priority-10 record ends RUNNING and current
while the other stays READY. -/
theorem c2_schedule_selects_highest (s : PMState)
    (hrun : s.scheduler_running = true)
    (hex : ∃ p ∈ s.process_table, p.state = ProcessState.ready ∧ 0 ≤ p.priority) :
    (∃ pre b post,
      s.process_table = pre ++ b :: post ∧
      ProcessManager.select_next_process s = some b ∧
      b.state = .ready ∧
      (∀ c ∈ pre, c.state = .ready → c.priority < b.priority) ∧
      (∀ c ∈ s.process_table, c.state = .ready → c.priority ≤ b.priority) ∧
      (s.current ≠ some b.pid →
        ProcessManager.schedule s = ProcessManager.context_switch s b.pid ∧
        (ProcessManager.schedule s).current = some b.pid ∧
        (∀ c ∈ (ProcessManager.schedule s).process_table, c.pid = b.pid →
          c.state = .running) ∧
        (∀ old, s.current = some old →
          ∀ c ∈ (ProcessManager.schedule s).process_table, c.pid = old → c.pid ≠ b.pid →
            c.state = .ready))) ∧
    ((ProcessManager.schedule c2ScenarioState).current = some 2 ∧
     (ProcessManager.findPCB (ProcessManager.schedule c2ScenarioState) 2).map
       (fun b => b.state) = some .running ∧
     (ProcessManager.findPCB (ProcessManager.schedule c2ScenarioState) 1).map
       (fun b => b.state) = some .ready) := by
  constructor
  · have hex' : ∃ c ∈ s.process_table, c.state = .ready ∧ (-1 : Int) < c.priority := by
      obtain ⟨p, hp, hr, hpri⟩ := hex
      exact ⟨p, hp, hr, lt_of_lt_of_le (by norm_num) hpri⟩
    obtain ⟨pre, b, post, heq, hsel, hready, hlt, hpre, hpost⟩ :=
      (ProcessManager.select_next_aux_spec s.process_table (-1)).2 hex' none
    have hsel' : ProcessManager.select_next_process s = some b := hsel
    have hall : ∀ c ∈ s.process_table, c.state = .ready → c.priority ≤ b.priority := by
      intro c hc hcr
      rw [heq] at hc
      rcases List.mem_append.1 hc with h | h
      · exact le_of_lt (hpre c h hcr)
      · rcases List.mem_cons.1 h with h' | h'
        · rw [h']
        · exact hpost c h' hcr
    refine ⟨pre, b, post, heq, hsel', hready, hpre, hall, ?_⟩
    intro hcur
    have hsched : ProcessManager.schedule s = ProcessManager.context_switch s b.pid := by
      unfold ProcessManager.schedule
      rw [if_neg (by simp [hrun]), hsel']
      exact if_neg hcur
    obtain ⟨hc1, hc2, hc3⟩ := ProcessManager.context_switch_spec s b.pid
    refine ⟨hsched, by rw [hsched]; exact hc1, by rw [hsched]; exact hc2, ?_⟩
    intro old hold c hc hcp hcne
    rw [hsched] at hc
    have hne' : old ≠ b.pid := by
      intro h
      exact hcur (by rw [hold, h])
    exact hc3 old hold hne' c hc hcp
  · refine ⟨by decide, by decide, by decide⟩

/-- Witness for C2: the hypotheses discharged at the concrete scenario
state (scheduler running, both records READY with priorities 5, 10 ≥ 0). -/
theorem c2_schedule_selects_highest_witness :
    (ProcessManager.schedule c2ScenarioState).current = some 2 ∧
    (ProcessManager.findPCB (ProcessManager.schedule c2ScenarioState) 2).map
      (fun b => b.state) = some .running ∧
    (ProcessManager.findPCB (ProcessManager.schedule c2ScenarioState) 1).map
      (fun b => b.state) = some .ready :=
  (c2_schedule_selects_highest c2ScenarioState (by decide)
    ⟨{ pid := 1, parent_pid := 0, state := .ready, priority := 5, should_terminate := false },
      by decide, by decide, by decide⟩).2

/-! ### Process-table invariants (claims C3 and C5) -/

/-- The pids currently in the table. -/
def tablePids (s : PMState) : List Int := s.process_table.map (fun b => b.pid)

/-- Bookkeeping invariant of the process table: pids are pairwise
distinct and all below the `next_pid` counter. -/
def PMInv (s : PMState) : Prop :=
  (tablePids s).Nodup ∧ ∀ b ∈ s.process_table, b.pid < s.next_pid

/-- Scheduler bookkeeping: every RUNNING record is the current one. -/
def RunInv (s : PMState) : Prop :=
  ∀ b ∈ s.process_table, b.state = .running → s.current = some b.pid

namespace ProcessManager

theorem updatePCB_pids (s : PMState) (pid : Int)
    (f : ProcessControlBlock → ProcessControlBlock) (hf : ∀ b, (f b).pid = b.pid) :
    tablePids (updatePCB s pid f) = tablePids s := by
  unfold tablePids updatePCB
  simp only [List.map_map]
  apply List.map_congr_left
  intro x hx
  by_cases h : x.pid = pid
  · simp [Function.comp, h, hf]
  · simp [Function.comp, h]

theorem updatePCB_next_pid (s : PMState) (pid : Int)
    (f : ProcessControlBlock → ProcessControlBlock) :
    (updatePCB s pid f).next_pid = s.next_pid := rfl

theorem mem_updatePCB (s : PMState) (pid : Int)
    (f : ProcessControlBlock → ProcessControlBlock) (c : ProcessControlBlock) :
    c ∈ (updatePCB s pid f).process_table →
    ∃ x ∈ s.process_table, c = x ∨ c = f x := by
  intro hc
  obtain ⟨x, hx, hfx⟩ := List.mem_map.1 hc
  by_cases h : x.pid = pid
  · rw [if_pos (beq_iff_eq.2 h)] at hfx
    exact ⟨x, hx, .inr hfx.symm⟩
  · rw [if_neg (by simpa using h)] at hfx
    exact ⟨x, hx, .inl hfx.symm⟩

theorem pminv_updatePCB (s : PMState) (pid : Int)
    (f : ProcessControlBlock → ProcessControlBlock) (hf : ∀ b, (f b).pid = b.pid)
    (h : PMInv s) : PMInv (updatePCB s pid f) := by
  refine ⟨by rw [updatePCB_pids s pid f hf]; exact h.1, ?_⟩
  intro b hb
  obtain ⟨x, hx, hcase⟩ := mem_updatePCB s pid f b hb
  rw [updatePCB_next_pid]
  rcases hcase with h' | h'
  · rw [h']; exact h.2 x hx
  · rw [h', hf]; exact h.2 x hx

theorem pminv_create (s : PMState) (ok : Bool) (h : PMInv s) :
    PMInv (create_process s ok).2 := by
  cases ok with
  | false =>
      refine ⟨h.1, ?_⟩
      intro b hb
      show b.pid < s.next_pid + 1
      have := h.2 b hb
      omega
  | true =>
      have htab : (create_process s true).2.process_table =
          s.process_table ++ [freshPCB s] := rfl
      have hnext : (create_process s true).2.next_pid = s.next_pid + 1 := rfl
      refine ⟨?_, ?_⟩
      · show ((create_process s true).2.process_table.map (fun b => b.pid)).Nodup
        rw [htab, List.map_append, List.nodup_append]
        refine ⟨h.1, List.nodup_singleton _, ?_⟩
        intro x hx hy
        rw [List.map_singleton] at hy
        have h1 : x = s.next_pid := List.mem_singleton.1 hy
        obtain ⟨b, hb, hbx⟩ := List.mem_map.1 hx
        have h3 : x < s.next_pid := hbx ▸ h.2 b hb
        rw [h1] at h3
        exact lt_irrefl _ h3
      · intro b hb
        rw [htab] at hb
        rw [hnext]
        rcases List.mem_append.1 hb with h' | h'
        · have := h.2 b h'
          omega
        · have hb' := List.mem_singleton.1 h'
          rw [hb']
          show s.next_pid < s.next_pid + 1
          omega

theorem pminv_terminate (s : PMState) (pid : Int) (h : PMInv s) :
    PMInv (terminate_process s pid).2 := by
  unfold terminate_process
  cases hf : findPCB s pid with
  | none => exact h
  | some b =>
      constructor
      · exact ((List.filter_sublist _).map _).nodup h.1
      · intro c hc
        exact h.2 c (List.mem_of_mem_filter hc)

theorem pminv_suspend (s : PMState) (pid : Int) (h : PMInv s) :
    PMInv (suspend_process s pid).2 := by
  unfold suspend_process
  cases hf : findPCB s pid with
  | none => exact h
  | some b => exact pminv_updatePCB s pid _ (fun _ => rfl) h

theorem pminv_resume (s : PMState) (pid : Int) (h : PMInv s) :
    PMInv (resume_process s pid).2 := by
  unfold resume_process
  split
  · split
    · exact pminv_updatePCB s pid _ (fun _ => rfl) h
    · exact h
  · exact h

theorem pminv_set_priority (s : PMState) (pid prio : Int) (h : PMInv s) :
    PMInv (set_process_priority s pid prio) := by
  unfold set_process_priority
  cases hf : findPCB s pid with
  | none => exact h
  | some b => exact pminv_updatePCB s pid _ (fun _ => rfl) h

theorem context_switch_eq_none (s : PMState) (newPid : Int) (hc : s.current = none) :
    context_switch s newPid =
      { updatePCB s newPid (fun b => { b with state := .running }) with
        current := some newPid } := by
  unfold context_switch
  rw [hc]

theorem context_switch_eq_some (s : PMState) (newPid old : Int) (hc : s.current = some old) :
    context_switch s newPid =
      { updatePCB (updatePCB s old (fun b => { b with state := .ready })) newPid
          (fun b => { b with state := .running }) with
        current := some newPid } := by
  unfold context_switch
  rw [hc]

theorem pminv_context_switch (s : PMState) (newPid : Int) (h : PMInv s) :
    PMInv (context_switch s newPid) := by
  cases hc : s.current with
  | none =>
      rw [context_switch_eq_none s newPid hc]
      exact pminv_updatePCB s newPid _ (fun _ => rfl) h
  | some old =>
      rw [context_switch_eq_some s newPid old hc]
      exact pminv_updatePCB _ newPid _ (fun _ => rfl)
        (pminv_updatePCB s old _ (fun _ => rfl) h)

theorem pminv_schedule (s : PMState) (h : PMInv s) : PMInv (schedule s) := by
  unfold schedule
  by_cases hr : s.scheduler_running = false
  · rw [if_pos hr]; exact h
  · rw [if_neg hr]
    cases hsel : select_next_process s with
    | none => exact h
    | some b =>
        show PMInv (if s.current = some b.pid then s else context_switch s b.pid)
        by_cases hcur : s.current = some b.pid
        · rw [if_pos hcur]; exact h
        · rw [if_neg hcur]; exact pminv_context_switch s b.pid h

theorem pminv_send_signal (s : PMState) (pid sig : Int) (h : PMInv s) :
    PMInv (send_signal s pid sig).2 := by
  unfold send_signal
  cases hf : findPCB s pid with
  | none => exact h
  | some b =>
      by_cases h9 : sig = 9
      · rw [if_pos h9]; exact pminv_terminate s pid h
      · rw [if_neg h9]
        by_cases h19 : sig = 19
        · rw [if_pos h19]; exact pminv_suspend s pid h
        · rw [if_neg h19]
          by_cases h18 : sig = 18
          · rw [if_pos h18]; exact pminv_resume s pid h
          · rw [if_neg h18]; exact h

end ProcessManager

theorem pminv_applyPOp (s : PMState) (op : POp) (h : PMInv s) : PMInv (applyPOp s op) := by
  cases op with
  | create ok => exact ProcessManager.pminv_create s ok h
  | terminate pid => exact ProcessManager.pminv_terminate s pid h
  | suspend pid => exact ProcessManager.pminv_suspend s pid h
  | resume pid => exact ProcessManager.pminv_resume s pid h
  | setPriority pid prio => exact ProcessManager.pminv_set_priority s pid prio h
  | signal pid sig => exact ProcessManager.pminv_send_signal s pid sig h
  | scheduleOp => exact ProcessManager.pminv_schedule s h
  | execStart pid => exact ProcessManager.pminv_updatePCB s pid _ (fun _ => rfl) h
  | execEnd pid => exact ProcessManager.pminv_updatePCB s pid _ (fun _ => rfl) h

namespace ProcessManager

theorem mem_updatePCB_strong (s : PMState) (pid : Int)
    (f : ProcessControlBlock → ProcessControlBlock) (c : ProcessControlBlock) :
    c ∈ (updatePCB s pid f).process_table →
    ∃ x ∈ s.process_table, (x.pid = pid ∧ c = f x) ∨ (x.pid ≠ pid ∧ c = x) := by
  intro hc
  obtain ⟨x, hx, hfx⟩ := List.mem_map.1 hc
  by_cases h : x.pid = pid
  · rw [if_pos (beq_iff_eq.2 h)] at hfx
    exact ⟨x, hx, .inl ⟨h, hfx.symm⟩⟩
  · rw [if_neg (by simpa using h)] at hfx
    exact ⟨x, hx, .inr ⟨h, hfx.symm⟩⟩

theorem runinv_create (s : PMState) (ok : Bool) (h : RunInv s) :
    RunInv (create_process s ok).2 := by
  cases ok with
  | false => exact fun b hb hr => h b hb hr
  | true =>
      intro b hb hr
      show s.current = some b.pid
      rcases List.mem_append.1 hb with h' | h'
      · exact h b h' hr
      · have hb' := List.mem_singleton.1 h'
        rw [hb'] at hr
        exact ProcessState.noConfusion hr

theorem runinv_terminate (s : PMState) (pid : Int) (h : RunInv s) :
    RunInv (terminate_process s pid).2 := by
  unfold terminate_process
  split
  · exact h
  · intro b hb hr
    exact h b (List.mem_of_mem_filter hb) hr

theorem runinv_updatePCB_nonrunning (s : PMState) (pid : Int)
    (f : ProcessControlBlock → ProcessControlBlock)
    (hf : ∀ b, (f b).state ≠ .running) (h : RunInv s) :
    RunInv (updatePCB s pid f) := by
  intro c hc hr
  obtain ⟨x, hx, hcase⟩ := mem_updatePCB_strong s pid f c hc
  rcases hcase with ⟨_, h'⟩ | ⟨_, h'⟩
  · rw [h'] at hr
    exact absurd hr (hf x)
  · rw [h']
    exact h x hx (h' ▸ hr)

theorem runinv_updatePCB_state_preserving (s : PMState) (pid : Int)
    (f : ProcessControlBlock → ProcessControlBlock)
    (hfp : ∀ b, (f b).pid = b.pid) (hfs : ∀ b, (f b).state = b.state) (h : RunInv s) :
    RunInv (updatePCB s pid f) := by
  intro c hc hr
  obtain ⟨x, hx, hcase⟩ := mem_updatePCB_strong s pid f c hc
  rcases hcase with ⟨_, h'⟩ | ⟨_, h'⟩
  · rw [h'] at hr ⊢
    rw [hfs] at hr
    rw [hfp]
    exact h x hx hr
  · rw [h']
    exact h x hx (h' ▸ hr)

theorem runinv_suspend (s : PMState) (pid : Int) (h : RunInv s) :
    RunInv (suspend_process s pid).2 := by
  unfold suspend_process
  split
  · exact h
  · exact runinv_updatePCB_nonrunning s pid _ (fun b => ProcessState.noConfusion) h

theorem runinv_resume (s : PMState) (pid : Int) (h : RunInv s) :
    RunInv (resume_process s pid).2 := by
  unfold resume_process
  split
  · split
    · exact runinv_updatePCB_nonrunning s pid _ (fun b => ProcessState.noConfusion) h
    · exact h
  · exact h

theorem runinv_set_priority (s : PMState) (pid prio : Int) (h : RunInv s) :
    RunInv (set_process_priority s pid prio) := by
  unfold set_process_priority
  split
  · exact runinv_updatePCB_state_preserving s pid _ (fun _ => rfl) (fun _ => rfl) h
  · exact h

theorem runinv_context_switch (s : PMState) (newPid : Int) (h : RunInv s) :
    RunInv (context_switch s newPid) := by
  cases hc : s.current with
  | none =>
      rw [context_switch_eq_none s newPid hc]
      intro c hc' hr
      show some newPid = some c.pid
      obtain ⟨x, hx, hcase⟩ := mem_updatePCB_strong s newPid _ c hc'
      rcases hcase with ⟨hxp, h'⟩ | ⟨hxp, h'⟩
      · rw [h']
        show some newPid = some x.pid
        rw [hxp]
      · rw [h'] at hr
        have := h x hx hr
        rw [hc] at this
        cases this
  | some old =>
      rw [context_switch_eq_some s newPid old hc]
      intro c hc' hr
      show some newPid = some c.pid
      obtain ⟨x, hx, hcase⟩ := mem_updatePCB_strong _ newPid _ c hc'
      rcases hcase with ⟨hxp, h'⟩ | ⟨hxp, h'⟩
      · rw [h']
        show some newPid = some x.pid
        rw [hxp]
      · obtain ⟨y, hy, hycase⟩ := mem_updatePCB_strong s old _ x hx
        rcases hycase with ⟨hyp, h''⟩ | ⟨hyp, h''⟩
        · rw [h', h''] at hr
          exact absurd hr (fun hx' => ProcessState.noConfusion hx')
        · rw [h', h''] at hr
          have h3 := h y hy hr
          rw [hc] at h3
          have h4 : old = y.pid := Option.some.inj h3
          exact absurd h4.symm hyp

theorem runinv_schedule (s : PMState) (h : RunInv s) : RunInv (schedule s) := by
  unfold schedule
  by_cases hr : s.scheduler_running = false
  · rw [if_pos hr]; exact h
  · rw [if_neg hr]
    cases hsel : select_next_process s with
    | none => exact h
    | some b =>
        show RunInv (if s.current = some b.pid then s else context_switch s b.pid)
        by_cases hcur : s.current = some b.pid
        · rw [if_pos hcur]; exact h
        · rw [if_neg hcur]; exact runinv_context_switch s b.pid h

theorem runinv_send_signal (s : PMState) (pid sig : Int) (h : RunInv s) :
    RunInv (send_signal s pid sig).2 := by
  unfold send_signal
  split
  · exact h
  · by_cases h9 : sig = 9
    · rw [if_pos h9]; exact runinv_terminate s pid h
    · rw [if_neg h9]
      by_cases h19 : sig = 19
      · rw [if_pos h19]; exact runinv_suspend s pid h
      · rw [if_neg h19]
        by_cases h18 : sig = 18
        · rw [if_pos h18]; exact runinv_resume s pid h
        · rw [if_neg h18]; exact h

end ProcessManager

theorem runinv_applyPOp (s : PMState) (op : POp) (hop : op.isSchedulerOp)
    (h : RunInv s) : RunInv (applyPOp s op) := by
  cases op with
  | create ok => exact ProcessManager.runinv_create s ok h
  | terminate pid => exact ProcessManager.runinv_terminate s pid h
  | suspend pid => exact ProcessManager.runinv_suspend s pid h
  | resume pid => exact ProcessManager.runinv_resume s pid h
  | setPriority pid prio => exact ProcessManager.runinv_set_priority s pid prio h
  | signal pid sig => exact ProcessManager.runinv_send_signal s pid sig h
  | scheduleOp => exact ProcessManager.runinv_schedule s h
  | execStart pid => cases hop
  | execEnd pid => cases hop

theorem pminv_initPM : PMInv ProcessManager.initPM :=
  ⟨List.nodup_nil, fun b hb => absurd hb (List.not_mem_nil b)⟩

theorem inv_runPOps_sched : ∀ (ops : List POp) (s : PMState),
    (∀ op ∈ ops, op.isSchedulerOp) → PMInv s → RunInv s →
    PMInv (runPOps s ops) ∧ RunInv (runPOps s ops) := by
  intro ops
  induction ops with
  | nil => exact fun s _ h1 h2 => ⟨h1, h2⟩
  | cons op ops ih =>
      intro s hops h1 h2
      rw [runPOps, List.foldl_cons]
      exact ih (applyPOp s op) (fun o ho => hops o (List.mem_cons_of_mem _ ho))
        (pminv_applyPOp s op h1)
        (runinv_applyPOp s op (hops op (List.mem_cons_self _ _)) h2)

theorem length_le_one_of_nodup_const {α : Type} (l : List α) (c : α) (h : l.Nodup)
    (hc : ∀ x ∈ l, x = c) : l.length ≤ 1 := by
  match l with
  | [] => simp
  | [x] => simp
  | x :: y :: rest =>
      exfalso
      have hx := hc x (List.mem_cons_self _ _)
      have hy := hc y (List.mem_cons_of_mem _ (List.mem_cons_self _ _))
      rw [List.nodup_cons] at h
      exact h.1 (by rw [hx, hy]; exact List.mem_cons_self _ _)

theorem countRunning_le_one (s : PMState) (hn : (tablePids s).Nodup) (h : RunInv s) :
    countRunning s ≤ 1 := by
  unfold countRunning
  cases hc : s.current with
  | none =>
      have hnil : s.process_table.filter (fun b => b.state == ProcessState.running) = [] := by
        rw [List.filter_eq_nil_iff]
        intro b hb hbr
        have hbr' : b.state = .running := by simpa using hbr
        have := h b hb hbr'
        rw [hc] at this
        cases this
      rw [hnil]
      simp
  | some cur =>
      have hsub : (s.process_table.filter (fun b => b.state == ProcessState.running)).Sublist
          s.process_table := List.filter_sublist _
      have hnd : ((s.process_table.filter (fun b => b.state == ProcessState.running)).map
          (fun b => b.pid)).Nodup := (hsub.map _).nodup hn
      have hconst : ∀ x ∈ (s.process_table.filter
          (fun b => b.state == ProcessState.running)).map (fun b => b.pid), x = cur := by
        intro x hx
        obtain ⟨b, hb, hbx⟩ := List.mem_map.1 hx
        have hbr : b.state = .running := by simpa using List.of_mem_filter hb
        have hcur := h b (List.mem_of_mem_filter hb) hbr
        rw [hc] at hcur
        rw [← hbx]
        exact (Option.some.inj hcur).symm
      have hlen := length_le_one_of_nodup_const _ cur hnd hconst
      rw [List.length_map] at hlen
      exact hlen

/-- C3 counterexample: each process's execution unit
(`execute_process`) marks its own record RUNNING as soon as its thread
starts, without consulting the scheduler, so after creating two
processes and letting both execution units take their first step, two
records are RUNNING at once — and a `schedule()` call does not repair
this (no record is READY, so it selects nothing), so the violation is
also observable right after `schedule()` returns. -/
theorem c3_counterexample :
    countRunning (runPOps ProcessManager.initPM
      [.create true, .create true, .execStart 1, .execStart 2]) = 2 ∧
    countRunning (applyPOp (runPOps ProcessManager.initPM
      [.create true, .create true, .execStart 1, .execStart 2]) .scheduleOp) = 2 := by
  exact ⟨by decide, by decide⟩

/-- C3 (amended): when only the scheduler's own operations run —
create, terminate, suspend, resume, set-priority, send-signal and
schedule, excluding the two state writes each process's execution unit
performs asynchronously — at most one record is RUNNING in every
reachable state, in particular right after every `schedule()` call.
With the execution-unit steps included the invariant fails (see the
counterexample), because `execute_process` unconditionally sets its own
record RUNNING. -/
theorem c3_running_invariant_amended (ops : List POp)
    (hops : ∀ op ∈ ops, op.isSchedulerOp) :
    countRunning (runPOps ProcessManager.initPM ops) ≤ 1 := by
  have h := inv_runPOps_sched ops ProcessManager.initPM hops pminv_initPM
    (fun b hb => absurd hb (List.not_mem_nil b))
  exact countRunning_le_one _ h.1.1 h.2

/-- Witness for C3 (amended): a concrete scheduler-only run (two
creations, a schedule, a suspension, another schedule) keeps at most
one record RUNNING. -/
theorem c3_running_invariant_amended_witness :
    countRunning (runPOps ProcessManager.initPM
      [.create true, .create true, .scheduleOp, .suspend 1, .scheduleOp]) ≤ 1 :=
  c3_running_invariant_amended
    [.create true, .create true, .scheduleOp, .suspend 1, .scheduleOp] (by decide)

/-! ### Pid assignment (claim C5) -/

namespace ProcessManager

theorem next_pid_terminate (s : PMState) (pid : Int) :
    (terminate_process s pid).2.next_pid = s.next_pid := by
  unfold terminate_process
  split <;> rfl

theorem next_pid_suspend (s : PMState) (pid : Int) :
    (suspend_process s pid).2.next_pid = s.next_pid := by
  unfold suspend_process
  split <;> rfl

theorem next_pid_resume (s : PMState) (pid : Int) :
    (resume_process s pid).2.next_pid = s.next_pid := by
  unfold resume_process
  split
  · split <;> rfl
  · rfl

theorem next_pid_set_priority (s : PMState) (pid prio : Int) :
    (set_process_priority s pid prio).next_pid = s.next_pid := by
  unfold set_process_priority
  split <;> rfl

theorem next_pid_context_switch (s : PMState) (newPid : Int) :
    (context_switch s newPid).next_pid = s.next_pid := by
  cases hc : s.current with
  | none =>
      rw [context_switch_eq_none s newPid hc]
      rfl
  | some old =>
      rw [context_switch_eq_some s newPid old hc]
      rfl

theorem next_pid_schedule (s : PMState) : (schedule s).next_pid = s.next_pid := by
  unfold schedule
  by_cases hr : s.scheduler_running = false
  · rw [if_pos hr]
  · rw [if_neg hr]
    cases hsel : select_next_process s with
    | none => rfl
    | some b =>
        show (if s.current = some b.pid then s else context_switch s b.pid).next_pid = _
        by_cases hcur : s.current = some b.pid
        · rw [if_pos hcur]
        · rw [if_neg hcur]
          exact next_pid_context_switch s b.pid

theorem next_pid_send_signal (s : PMState) (pid sig : Int) :
    (send_signal s pid sig).2.next_pid = s.next_pid := by
  unfold send_signal
  split
  · rfl
  · by_cases h9 : sig = 9
    · rw [if_pos h9]; exact next_pid_terminate s pid
    · rw [if_neg h9]
      by_cases h19 : sig = 19
      · rw [if_pos h19]; exact next_pid_suspend s pid
      · rw [if_neg h19]
        by_cases h18 : sig = 18
        · rw [if_pos h18]; exact next_pid_resume s pid
        · rw [if_neg h18]

end ProcessManager

theorem next_pid_applyPOp_mono (s : PMState) (op : POp) :
    s.next_pid ≤ (applyPOp s op).next_pid := by
  cases op with
  | create ok =>
      cases ok with
      | true => show s.next_pid ≤ s.next_pid + 1; omega
      | false => show s.next_pid ≤ s.next_pid + 1; omega
  | terminate pid => rw [show applyPOp s (.terminate pid) =
      (ProcessManager.terminate_process s pid).2 from rfl,
      ProcessManager.next_pid_terminate]
  | suspend pid => rw [show applyPOp s (.suspend pid) =
      (ProcessManager.suspend_process s pid).2 from rfl, ProcessManager.next_pid_suspend]
  | resume pid => rw [show applyPOp s (.resume pid) =
      (ProcessManager.resume_process s pid).2 from rfl, ProcessManager.next_pid_resume]
  | setPriority pid prio => rw [show applyPOp s (.setPriority pid prio) =
      ProcessManager.set_process_priority s pid prio from rfl,
      ProcessManager.next_pid_set_priority]
  | signal pid sig => rw [show applyPOp s (.signal pid sig) =
      (ProcessManager.send_signal s pid sig).2 from rfl, ProcessManager.next_pid_send_signal]
  | scheduleOp => rw [show applyPOp s .scheduleOp = ProcessManager.schedule s from rfl,
      ProcessManager.next_pid_schedule]
  | execStart pid => rfl
  | execEnd pid => rfl

theorem c5_log_invariant : ∀ (ops : List POp) (p : PMState × List Int),
    p.2.Pairwise (· < ·) → (∀ x ∈ p.2, x < p.1.next_pid) → PMInv p.1 →
    (ops.foldl logStep p).2.Pairwise (· < ·) ∧
    (∀ x ∈ (ops.foldl logStep p).2, x < (ops.foldl logStep p).1.next_pid) ∧
    PMInv (ops.foldl logStep p).1 := by
  intro ops
  induction ops with
  | nil => exact fun p h1 h2 h3 => ⟨h1, h2, h3⟩
  | cons op ops ih =>
      intro p h1 h2 h3
      rw [List.foldl_cons]
      apply ih
      · -- the log stays strictly increasing after one step
        cases op with
        | create ok =>
            cases ok with
            | false => exact h1
            | true =>
                show (if p.1.next_pid = -1 then p.2 else p.2 ++ [p.1.next_pid]).Pairwise (· < ·)
                by_cases hneg : p.1.next_pid = -1
                · rw [if_pos hneg]; exact h1
                · rw [if_neg hneg]
                  rw [List.pairwise_append]
                  refine ⟨h1, List.pairwise_singleton _ _, ?_⟩
                  intro x hx y hy
                  rw [List.mem_singleton.1 hy]
                  exact h2 x hx
        | terminate pid => exact h1
        | suspend pid => exact h1
        | resume pid => exact h1
        | setPriority pid prio => exact h1
        | signal pid sig => exact h1
        | scheduleOp => exact h1
        | execStart pid => exact h1
        | execEnd pid => exact h1
      · -- the log stays bounded by the pid counter after one step
        cases op with
        | create ok =>
            cases ok with
            | false =>
                intro x hx
                show x < p.1.next_pid + 1
                have := h2 x hx
                omega
            | true =>
                intro x hx
                show x < p.1.next_pid + 1
                have hx' : x ∈ (if p.1.next_pid = -1 then p.2 else p.2 ++ [p.1.next_pid]) := hx
                by_cases hneg : p.1.next_pid = -1
                · rw [if_pos hneg] at hx'
                  have := h2 x hx'
                  omega
                · rw [if_neg hneg] at hx'
                  rcases List.mem_append.1 hx' with h' | h'
                  · have := h2 x h'
                    omega
                  · rw [List.mem_singleton.1 h']
                    omega
        | terminate pid =>
            intro x hx
            rw [show (logStep p (.terminate pid)).1 = (ProcessManager.terminate_process p.1
              pid).2 from rfl, ProcessManager.next_pid_terminate]
            exact h2 x hx
        | suspend pid =>
            intro x hx
            rw [show (logStep p (.suspend pid)).1 = (ProcessManager.suspend_process p.1
              pid).2 from rfl, ProcessManager.next_pid_suspend]
            exact h2 x hx
        | resume pid =>
            intro x hx
            rw [show (logStep p (.resume pid)).1 = (ProcessManager.resume_process p.1
              pid).2 from rfl, ProcessManager.next_pid_resume]
            exact h2 x hx
        | setPriority pid prio =>
            intro x hx
            rw [show (logStep p (.setPriority pid prio)).1 =
              ProcessManager.set_process_priority p.1 pid prio from rfl,
              ProcessManager.next_pid_set_priority]
            exact h2 x hx
        | signal pid sig =>
            intro x hx
            rw [show (logStep p (.signal pid sig)).1 = (ProcessManager.send_signal p.1 pid
              sig).2 from rfl, ProcessManager.next_pid_send_signal]
            exact h2 x hx
        | scheduleOp =>
            intro x hx
            rw [show (logStep p .scheduleOp).1 = ProcessManager.schedule p.1 from rfl,
              ProcessManager.next_pid_schedule]
            exact h2 x hx
        | execStart pid => exact h2
        | execEnd pid => exact h2
      · -- the table invariant is preserved by every step
        cases op with
        | create ok => exact ProcessManager.pminv_create p.1 ok h3
        | terminate pid => exact ProcessManager.pminv_terminate p.1 pid h3
        | suspend pid => exact ProcessManager.pminv_suspend p.1 pid h3
        | resume pid => exact ProcessManager.pminv_resume p.1 pid h3
        | setPriority pid prio => exact ProcessManager.pminv_set_priority p.1 pid prio h3
        | signal pid sig => exact ProcessManager.pminv_send_signal p.1 pid sig h3
        | scheduleOp => exact ProcessManager.pminv_schedule p.1 h3
        | execStart pid => exact ProcessManager.pminv_updatePCB p.1 pid _ (fun _ => rfl) h3
        | execEnd pid => exact ProcessManager.pminv_updatePCB p.1 pid _ (fun _ => rfl) h3

/-- C5: over every operation sequence in one session (including the
asynchronous execution-unit steps), the pids returned by the successful
`create_process` calls are pairwise strictly increasing in call order —
so a pid is never reused, even after its process is terminated and
removed — and the pids held by the records in the table are pairwise
distinct at every point. -/
theorem c5_pid_uniqueness (ops : List POp) :
    (runPLog ProcessManager.initPM ops).2.Pairwise (· < ·) ∧
    (tablePids (runPLog ProcessManager.initPM ops).1).Nodup := by
  have h := c5_log_invariant ops (ProcessManager.initPM, []) List.Pairwise.nil
    (fun x hx => absurd hx (List.not_mem_nil x)) pminv_initPM
  exact ⟨h.1, h.2.2.1⟩

/-! ### Arena tiling and conservation (claim C1) -/

/-- The addresses covered by one block: `[address, address + size)`. -/
def blockSpan (b : MemoryBlock) : List Nat := (List.range b.size).map (b.address + ·)

/-- All addresses covered by a block list, with multiplicity. -/
def coveredList (bs : List MemoryBlock) : List Nat := bs.flatMap blockSpan

/-- The addresses of the arena `[base, base + n)`. -/
def arenaSpan (base n : Nat) : List Nat := (List.range n).map (base + ·)

/-- Tiling invariant: the covered addresses are a permutation of the
arena's addresses — every arena address is covered by exactly one block
(no gaps, no overlaps) and nothing outside the arena is covered. -/
def TilesState (s : MMState) : Prop :=
  List.Perm (coveredList s.memory_blocks) (arenaSpan s.memory_pool s.pool_size)

/-- One memory operation leaves the pool fields alone and permutes the
covered addresses. -/
def MemEquiv (t s : MMState) : Prop :=
  t.memory_pool = s.memory_pool ∧ t.pool_size = s.pool_size ∧
  List.Perm (coveredList t.memory_blocks) (coveredList s.memory_blocks)

theorem memEquiv_refl (s : MMState) : MemEquiv s s := ⟨rfl, rfl, .refl _⟩

theorem memEquiv_trans {t u s : MMState} (h1 : MemEquiv t u) (h2 : MemEquiv u s) :
    MemEquiv t s :=
  ⟨h1.1.trans h2.1, h1.2.1.trans h2.2.1, h1.2.2.trans h2.2.2⟩

theorem coveredList_nil : coveredList [] = [] := rfl

theorem coveredList_cons (b : MemoryBlock) (bs : List MemoryBlock) :
    coveredList (b :: bs) = blockSpan b ++ coveredList bs := rfl

theorem coveredList_append (l1 l2 : List MemoryBlock) :
    coveredList (l1 ++ l2) = coveredList l1 ++ coveredList l2 :=
  List.flatMap_append l1 l2 blockSpan

theorem map_range_split (a s req : Nat) (h : req ≤ s) :
    (List.range s).map (a + ·) =
      (List.range req).map (a + ·) ++ (List.range (s - req)).map (a + req + ·) := by
  conv_lhs => rw [show s = req + (s - req) from (Nat.add_sub_cancel' h).symm]
  rw [List.range_add, List.map_append, List.map_map]
  congr 1
  apply List.map_congr_left
  intro x hx
  show a + (req + x) = a + req + x
  omega

namespace MemoryManager

/-- The shrunken, now-used block first-fit leaves in place (address and
owner unchanged, size cut to the request, marked used). -/
def usedBlock (b : MemoryBlock) (req : Nat) : MemoryBlock :=
  { b with size := req, is_free := false }

/-- The split-off tail block first-fit pushes to the end of the vector. -/
def splitTail (b : MemoryBlock) (req : Nat) : MemoryBlock :=
  { address := b.address + req, size := b.size - req, is_free := true, process_id := -1 }

theorem first_fit_cons_pos (req : Nat) (b : MemoryBlock) (rest : List MemoryBlock)
    (hc : b.is_free = true ∧ req ≤ b.size) :
    first_fit_allocate req (b :: rest) =
      (some b.address, { b with size := req, is_free := false } ::
        (rest ++ (if req < b.size then
          [{ address := b.address + req, size := b.size - req,
             is_free := true, process_id := -1 }] else []))) := by
  unfold first_fit_allocate
  rw [if_pos hc]

theorem first_fit_cons_neg (req : Nat) (b : MemoryBlock) (rest : List MemoryBlock)
    (hc : ¬(b.is_free = true ∧ req ≤ b.size)) :
    first_fit_allocate req (b :: rest) =
      ((first_fit_allocate req rest).1, b :: (first_fit_allocate req rest).2) := by
  rw [first_fit_allocate, if_neg hc]

theorem covered_first_fit (req : Nat) (bs : List MemoryBlock) :
    List.Perm (coveredList (first_fit_allocate req bs).2) (coveredList bs) := by
  induction bs with
  | nil => exact .refl _
  | cons b rest ih =>
      by_cases hc : b.is_free = true ∧ req ≤ b.size
      · rw [first_fit_cons_pos req b rest hc]
        by_cases hlt : req < b.size
        · rw [if_pos hlt]
          show List.Perm (coveredList (usedBlock b req :: (rest ++ [splitTail b req])))
            (coveredList (b :: rest))
          rw [coveredList_cons, coveredList_append, coveredList_cons, coveredList_nil,
            List.append_nil, coveredList_cons]
          have hsplit : blockSpan b = blockSpan (usedBlock b req) ++ blockSpan (splitTail b req) :=
            map_range_split b.address b.size req hc.2
          have step1 : List.Perm
              (blockSpan (usedBlock b req) ++ (coveredList rest ++ blockSpan (splitTail b req)))
              (blockSpan (usedBlock b req) ++ (blockSpan (splitTail b req) ++ coveredList rest)) :=
            List.Perm.append_left _ List.perm_append_comm
          have step2 : blockSpan (usedBlock b req) ++
              (blockSpan (splitTail b req) ++ coveredList rest) =
              blockSpan b ++ coveredList rest := by
            rw [← List.append_assoc, ← hsplit]
          exact step2 ▸ step1
        · rw [if_neg hlt]
          have heq : req = b.size := le_antisymm hc.2 (not_lt.1 hlt)
          show List.Perm (coveredList (usedBlock b req :: (rest ++ [])))
            (coveredList (b :: rest))
          rw [List.append_nil, coveredList_cons, coveredList_cons]
          have hspan : blockSpan (usedBlock b req) = blockSpan b := by
            show (List.range req).map (b.address + ·) = (List.range b.size).map (b.address + ·)
            rw [heq]
          rw [hspan]
      · rw [first_fit_cons_neg req b rest hc]
        show List.Perm (coveredList (b :: (first_fit_allocate req rest).2))
          (coveredList (b :: rest))
        rw [coveredList_cons, coveredList_cons]
        exact ih.append_left _

end MemoryManager

namespace MemoryManager

theorem coveredList_markFreeFirst (p : Nat) (bs : List MemoryBlock) :
    coveredList (markFreeFirst p bs) = coveredList bs := by
  induction bs with
  | nil => rfl
  | cons b rest ih =>
      unfold markFreeFirst
      by_cases h : b.address = p
      · rw [if_pos h]
        rfl
      · rw [if_neg h, coveredList_cons, coveredList_cons, ih]

theorem coveredList_markOwnerFirst (p : Nat) (pid : Int) (bs : List MemoryBlock) :
    coveredList (markOwnerFirst p pid bs) = coveredList bs := by
  induction bs with
  | nil => rfl
  | cons b rest ih =>
      unfold markOwnerFirst
      by_cases h : b.address = p
      · rw [if_pos h]
        rfl
      · rw [if_neg h, coveredList_cons, coveredList_cons, ih]

theorem coveredList_map_preserve (f : MemoryBlock → MemoryBlock)
    (hf : ∀ b, (f b).address = b.address ∧ (f b).size = b.size) (bs : List MemoryBlock) :
    coveredList (bs.map f) = coveredList bs := by
  induction bs with
  | nil => rfl
  | cons b rest ih =>
      rw [List.map_cons, coveredList_cons, coveredList_cons, ih]
      congr 1
      show (List.range (f b).size).map ((f b).address + ·) = _
      rw [(hf b).1, (hf b).2]
      rfl

theorem covered_sort (bs : List MemoryBlock) :
    List.Perm (coveredList (sort_blocks bs)) (coveredList bs) :=
  (List.perm_insertionSort _ bs).flatMap_right blockSpan

theorem covered_merge_from (cur : MemoryBlock) (rest : List MemoryBlock) :
    List.Perm (coveredList (merge_from cur rest)) (coveredList (cur :: rest)) := by
  induction rest generalizing cur with
  | nil => rw [merge_from]
  | cons b rest ih =>
      by_cases hc : cur.is_free = true ∧ b.is_free = true ∧
          cur.address + cur.size = b.address
      · rw [merge_from, if_pos hc]
        refine (ih _).trans ?_
        rw [coveredList_cons, coveredList_cons, coveredList_cons]
        have hmerge : blockSpan { cur with size := cur.size + b.size } =
            blockSpan cur ++ blockSpan b := by
          show (List.range (cur.size + b.size)).map (cur.address + ·) = _
          rw [List.range_add, List.map_append, List.map_map]
          congr 1
          apply List.map_congr_left
          intro x hx
          show cur.address + (cur.size + x) = b.address + x
          have := hc.2.2
          omega
        rw [hmerge, List.append_assoc]
      · rw [merge_from, if_neg hc]
        rw [coveredList_cons, coveredList_cons, coveredList_cons]
        exact (ih b).append_left (blockSpan cur)

theorem covered_merge_adjacent (l : List MemoryBlock) :
    List.Perm (coveredList (merge_adjacent l)) (coveredList l) := by
  cases l with
  | nil => exact .refl _
  | cons b rest => exact covered_merge_from b rest

theorem covered_coalesce (bs : List MemoryBlock) :
    List.Perm (coveredList (coalesce_free_blocks bs)) (coveredList bs) :=
  (covered_merge_adjacent _).trans (covered_sort bs)

end MemoryManager

namespace MemoryManager

theorem allocate_zero (s : MMState) : allocate s 0 = (none, s) := by
  unfold allocate
  rw [if_pos rfl]

theorem allocate_eq (s : MMState) (n : Nat) (h0 : n ≠ 0) :
    allocate s n =
      (match (first_fit_allocate (align_size n) s.memory_blocks).1 with
        | some a => (some a,
            { s with memory_blocks := (first_fit_allocate (align_size n) s.memory_blocks).2,
                     allocated_blocks := assocInsert a (align_size n) s.allocated_blocks })
        | none => (none, s)) := by
  unfold allocate
  rw [if_neg h0]

theorem memEquiv_allocate (s : MMState) (n : Nat) : MemEquiv (allocate s n).2 s := by
  by_cases h0 : n = 0
  · subst h0
    rw [allocate_zero]
    exact memEquiv_refl s
  · rw [allocate_eq s n h0]
    cases hr : (first_fit_allocate (align_size n) s.memory_blocks).1 with
    | some a =>
        refine ⟨rfl, rfl, ?_⟩
        show List.Perm (coveredList (first_fit_allocate (align_size n) s.memory_blocks).2)
          (coveredList s.memory_blocks)
        exact covered_first_fit _ _
    | none => exact memEquiv_refl s

theorem memEquiv_allocate_aligned (s : MMState) (n align : Nat) :
    MemEquiv (allocate_aligned s n align).2 s := by
  unfold allocate_aligned
  by_cases hp : align = 0 ∨ align &&& (align - 1) ≠ 0
  · rw [if_pos hp]
    exact memEquiv_refl s
  · rw [if_neg hp]
    show MemEquiv ((match (allocate s ((n + align - 1) % U64)).1 with
      | some addr => (some ((addr + align - 1) % U64 / align * align),
          (allocate s ((n + align - 1) % U64)).2)
      | none => (none, (allocate s ((n + align - 1) % U64)).2)).2) s
    cases hr : (allocate s ((n + align - 1) % U64)).1 with
    | some addr => exact memEquiv_allocate s _
    | none => exact memEquiv_allocate s _

theorem memEquiv_deallocate (s : MMState) (ptr : Nat) :
    MemEquiv (deallocate s ptr).2 s := by
  by_cases hp : ptr = 0
  · subst hp
    unfold deallocate
    rw [if_pos rfl]
    exact memEquiv_refl s
  · cases hl : assocLookup ptr s.allocated_blocks with
    | none =>
        rw [deallocate_not_found s ptr hp hl]
        exact memEquiv_refl s
    | some sz =>
        rw [deallocate_found s ptr sz hp hl]
        refine ⟨rfl, rfl, ?_⟩
        show List.Perm (coveredList (coalesce_free_blocks (markFreeFirst ptr s.memory_blocks)))
          (coveredList s.memory_blocks)
        have h1 := covered_coalesce (markFreeFirst ptr s.memory_blocks)
        rw [coveredList_markFreeFirst] at h1
        exact h1

theorem memEquiv_allocate_for_process (s : MMState) (pid : Int) (n : Nat) :
    MemEquiv (allocate_for_process s pid n).2 s := by
  unfold allocate_for_process
  show MemEquiv ((match (allocate s n).1 with
    | some a => (some a, { (allocate s n).2 with
        memory_blocks := markOwnerFirst a pid (allocate s n).2.memory_blocks })
    | none => allocate s n).2) s
  cases hr : (allocate s n).1 with
  | some a =>
      refine memEquiv_trans ?_ (memEquiv_allocate s n)
      refine ⟨rfl, rfl, ?_⟩
      show List.Perm (coveredList (markOwnerFirst a pid (allocate s n).2.memory_blocks))
        (coveredList (allocate s n).2.memory_blocks)
      rw [coveredList_markOwnerFirst]
  | none => exact memEquiv_allocate s n

theorem memEquiv_deallocate_process_memory (s : MMState) (pid : Int) :
    MemEquiv (deallocate_process_memory s pid) s := by
  refine ⟨rfl, rfl, ?_⟩
  show List.Perm (coveredList (coalesce_free_blocks (s.memory_blocks.map (fun b =>
    if b.process_id = pid ∧ b.is_free = false then
      { b with is_free := true, process_id := -1 } else b)))) (coveredList s.memory_blocks)
  have h1 := covered_coalesce (s.memory_blocks.map (fun b =>
    if b.process_id = pid ∧ b.is_free = false then
      { b with is_free := true, process_id := -1 } else b))
  rw [coveredList_map_preserve _ (fun b => by
    by_cases h : b.process_id = pid ∧ b.is_free = false
    · rw [if_pos h]
      exact ⟨rfl, rfl⟩
    · rw [if_neg h]
      exact ⟨rfl, rfl⟩)] at h1
  exact h1

theorem memEquiv_map_page (s : MMState) (v p : Nat) : MemEquiv (map_page s v p).2 s := by
  unfold map_page
  dsimp only
  cases hg : s.page_table.get? (pageIndex v) with
  | some e => exact ⟨rfl, rfl, .refl _⟩
  | none => exact memEquiv_refl s

theorem memEquiv_unmap_page (s : MMState) (v : Nat) : MemEquiv (unmap_page s v) s := by
  unfold unmap_page
  dsimp only
  cases hg : s.page_table.get? (pageIndex v) with
  | some e => exact ⟨rfl, rfl, .refl _⟩
  | none => exact memEquiv_refl s

set_option maxRecDepth 8192 in
theorem memEquiv_page_alloc (s : MMState) : MemEquiv (allocate_virtual_page s).2 s := by
  have hs2 : MemEquiv (allocate_aligned s PAGE_SIZE PAGE_SIZE).2 s :=
    memEquiv_allocate_aligned s PAGE_SIZE PAGE_SIZE
  unfold allocate_virtual_page
  dsimp only
  cases hr : (allocate_aligned s PAGE_SIZE PAGE_SIZE).1 with
  | some page =>
      exact memEquiv_trans (memEquiv_map_page _ _ _) (memEquiv_trans ⟨rfl, rfl, .refl _⟩ hs2)
  | none => exact hs2

theorem memEquiv_page_free (s : MMState) (v : Nat) :
    MemEquiv (free_virtual_page s v) s := by
  unfold free_virtual_page
  dsimp only
  by_cases hphys : virtual_to_physical s v ≠ 0
  · rw [if_pos hphys]
    exact memEquiv_trans (memEquiv_deallocate _ _) (memEquiv_unmap_page s v)
  · rw [if_neg hphys]
    exact memEquiv_refl s

end MemoryManager

theorem memEquiv_applyMOp (s : MMState) (op : MOp) : MemEquiv (applyMOp s op) s := by
  cases op with
  | alloc n => exact MemoryManager.memEquiv_allocate s n
  | allocFor pid n => exact MemoryManager.memEquiv_allocate_for_process s pid n
  | dealloc ptr => exact MemoryManager.memEquiv_deallocate s ptr
  | deallocProc pid => exact MemoryManager.memEquiv_deallocate_process_memory s pid
  | coalesceOp =>
      refine ⟨rfl, rfl, ?_⟩
      exact MemoryManager.covered_coalesce s.memory_blocks
  | pageAlloc => exact MemoryManager.memEquiv_page_alloc s
  | pageFree v => exact MemoryManager.memEquiv_page_free s v
  | mapPageOp v p => exact MemoryManager.memEquiv_map_page s v p
  | unmapPageOp v => exact MemoryManager.memEquiv_unmap_page s v

theorem runMOps_memEquiv : ∀ (ops : List MOp) (s : MMState), MemEquiv (runMOps s ops) s := by
  intro ops
  induction ops with
  | nil => exact fun s => memEquiv_refl s
  | cons op ops ih =>
      intro s
      rw [runMOps, List.foldl_cons]
      exact memEquiv_trans (ih (applyMOp s op)) (memEquiv_applyMOp s op)

theorem covered_initMM (base n : Nat) :
    coveredList (MemoryManager.initMM base n).memory_blocks = arenaSpan base n := by
  show blockSpan { address := base, size := n, is_free := true, process_id := -1 } ++ [] =
    arenaSpan base n
  rw [List.append_nil]
  rfl

theorem count_arenaSpan (base n x : Nat) :
    (arenaSpan base n).count x = if base ≤ x ∧ x < base + n then 1 else 0 := by
  unfold arenaSpan
  have hinj : Function.Injective (base + ·) := fun a b hab =>
    Nat.add_left_cancel hab
  by_cases hx : base ≤ x ∧ x < base + n
  · rw [if_pos hx]
    have hmem : x ∈ (List.range n).map (base + ·) :=
      List.mem_map.2 ⟨x - base, List.mem_range.2 (by omega), by show base + (x - base) = x; omega⟩
    exact List.count_eq_one_of_mem ((List.nodup_range n).map hinj) hmem
  · rw [if_neg hx]
    apply List.count_eq_zero_of_not_mem
    intro hmem
    obtain ⟨i, hi, hix⟩ := List.mem_map.1 hmem
    rw [List.mem_range] at hi
    have hix' : base + i = x := hix
    omega

theorem coveredList_length (bs : List MemoryBlock) :
    (coveredList bs).length = (bs.map MemoryBlock.size).sum := by
  induction bs with
  | nil => rfl
  | cons b rest ih =>
      rw [coveredList_cons, List.length_append, ih, List.map_cons, List.sum_cons]
      congr 1
      show ((List.range b.size).map (b.address + ·)).length = b.size
      rw [List.length_map, List.length_range]

theorem free_sum_le (bs : List MemoryBlock) :
    ((bs.filter (fun b => b.is_free)).map MemoryBlock.size).sum ≤
      (bs.map MemoryBlock.size).sum := by
  induction bs with
  | nil => exact le_refl 0
  | cons b rest ih =>
      have ih' : ((List.filter MemoryBlock.is_free rest).map MemoryBlock.size).sum ≤
          (rest.map MemoryBlock.size).sum := ih
      by_cases h : b.is_free
      · rw [List.filter_cons_of_pos h, List.map_cons, List.sum_cons, List.map_cons,
          List.sum_cons]
        omega
      · rw [List.filter_cons_of_neg h, List.map_cons, List.sum_cons]
        omega

/-- C1: starting from a successfully initialized arena (pool base
`base`, capacity `n`: the shipped configuration uses
`n = MEMORY_POOL_SIZE`), after any sequence of
allocate / allocate_for_process / deallocate /
deallocate_process_memory / coalesce_free_blocks operations (page-mapper
calls, which reach the allocator internally, are also included), every
arena address is covered by exactly one block span and no address
outside the arena is covered — no gaps, no overlaps — and consequently
`get_free_memory() ≤ get_total_memory()` and
`get_used_memory() + get_free_memory() = get_total_memory()` hold at
every point. -/
theorem c1_tiling_and_conservation (base n : Nat) (ops : List MOp) :
    (∀ x : Nat,
      (coveredList (runMOps (MemoryManager.initMM base n) ops).memory_blocks).count x =
        if base ≤ x ∧ x < base + n then 1 else 0) ∧
    MemoryManager.get_free_memory (runMOps (MemoryManager.initMM base n) ops) ≤
      MemoryManager.get_total_memory (runMOps (MemoryManager.initMM base n) ops) ∧
    MemoryManager.get_used_memory (runMOps (MemoryManager.initMM base n) ops) +
      MemoryManager.get_free_memory (runMOps (MemoryManager.initMM base n) ops) =
      MemoryManager.get_total_memory (runMOps (MemoryManager.initMM base n) ops) := by
  have he := runMOps_memEquiv ops (MemoryManager.initMM base n)
  have hperm : List.Perm
      (coveredList (runMOps (MemoryManager.initMM base n) ops).memory_blocks)
      (arenaSpan base n) := by
    have h1 := he.2.2
    rw [covered_initMM] at h1
    exact h1
  have hsize : (runMOps (MemoryManager.initMM base n) ops).pool_size = n := he.2.1
  have hsum : ((runMOps (MemoryManager.initMM base n) ops).memory_blocks.map
      MemoryBlock.size).sum = n := by
    have h1 := hperm.length_eq
    rw [coveredList_length] at h1
    rw [h1]
    show (arenaSpan base n).length = n
    unfold arenaSpan
    rw [List.length_map, List.length_range]
  have hfree : MemoryManager.get_free_memory (runMOps (MemoryManager.initMM base n) ops) ≤ n := by
    unfold MemoryManager.get_free_memory
    exact le_trans (free_sum_le _) (le_of_eq hsum)
  refine ⟨?_, ?_, ?_⟩
  · intro x
    rw [hperm.count_eq x, count_arenaSpan]
  · show MemoryManager.get_free_memory _ ≤ (runMOps (MemoryManager.initMM base n) ops).pool_size
    rw [hsize]
    exact hfree
  · show (runMOps (MemoryManager.initMM base n) ops).pool_size -
        MemoryManager.get_free_memory _ + MemoryManager.get_free_memory _ =
        (runMOps (MemoryManager.initMM base n) ops).pool_size
    rw [hsize]
    omega

/-! ### First-fit scan order (claim C4) -/

/-- The selection rule stated by the spec for claim C4, as written: the
free blocks are scanned in increasing ADDRESS order and the first one
whose size fits the (already aligned) request is chosen.  This is a
spec-side reference definition, to be compared with the code's
`first_fit_allocate`, which scans in table (vector) order. -/
def specFirstFitByAddress (req : Nat) (bs : List MemoryBlock) : Option Nat :=
  ((MemoryManager.sort_blocks bs).find?
      (fun b => b.is_free && decide (req ≤ b.size))).map (fun b => b.address)

namespace MemoryManager

theorem first_fit_spec (req : Nat) (bs : List MemoryBlock) :
    (∀ a, (first_fit_allocate req bs).1 = some a →
      ∃ pre b post, bs = pre ++ b :: post ∧ b.is_free = true ∧ req ≤ b.size ∧
        a = b.address ∧ ∀ c ∈ pre, ¬(c.is_free = true ∧ req ≤ c.size)) ∧
    ((first_fit_allocate req bs).1 = none →
      ∀ c ∈ bs, ¬(c.is_free = true ∧ req ≤ c.size)) := by
  induction bs with
  | nil =>
      constructor
      · intro a h
        rw [first_fit_allocate] at h
        cases h
      · intro _ c hc
        cases hc
  | cons b rest ih =>
      by_cases hc : b.is_free = true ∧ req ≤ b.size
      · rw [first_fit_cons_pos req b rest hc]
        constructor
        · intro a h
          refine ⟨[], b, rest, rfl, hc.1, hc.2, (Option.some.inj h).symm, ?_⟩
          intro c hcm
          cases hcm
        · intro h
          cases h
      · rw [first_fit_cons_neg req b rest hc]
        constructor
        · intro a h
          obtain ⟨pre, b', post, heq, hfree, hsz, ha, hpre⟩ := ih.1 a h
          refine ⟨b :: pre, b', post, by rw [heq, List.cons_append], hfree, hsz, ha, ?_⟩
          intro c hcm
          rcases List.mem_cons.1 hcm with h' | h'
          · rw [h']
            exact hc
          · exact hpre c h'
        · intro h c hcm
          rcases List.mem_cons.1 hcm with h' | h'
          · rw [h']
            exact hc
          · exact ih.2 h c h'

end MemoryManager

/-- C4 counterexample: on the reachable block list obtained by two
16-byte allocations, a free of the first and one 8-byte allocation
(which splits the freed block and pushes the tail to the END of the
vector, leaving the table unsorted), the next `allocate(8)` returns
address 1056 — the first fitting free block in TABLE order — while the
first fitting free block in increasing ADDRESS order, which the claim
prescribes, sits at address 1032. -/
theorem c4_counterexample :
    ((MemoryManager.allocate (runMOps (MemoryManager.initMM 1024 48)
        [.alloc 16, .alloc 16, .dealloc 1024, .alloc 8]) 8).1 = some 1056) ∧
    (specFirstFitByAddress (align_size 8) (runMOps (MemoryManager.initMM 1024 48)
        [.alloc 16, .alloc 16, .dealloc 1024, .alloc 8]).memory_blocks = some 1032) ∧
    ((some 1056 : Option Nat) ≠ some 1032) := by
  refine ⟨by decide, by decide, by decide⟩

/-- C4 (amended): `allocate(size)` with `size > 0` scans `memory_blocks`
in TABLE (vector) order, not address order, and returns the base address
of the first block in that order that is free and at least as large as
the 8-byte-rounded request (`none` when no block fits).  Table order
coincides with address order only right after a coalescing pass; an
allocation that splits a block appends the tail at the end of the
vector, after which the orders can differ (see the counterexample).
Determinism holds: the result is a function of the block list alone. -/
theorem c4_first_fit_table_order (s : MMState) (n : Nat) (h0 : n ≠ 0) :
    ((MemoryManager.allocate s n).1 =
      (MemoryManager.first_fit_allocate (align_size n) s.memory_blocks).1) ∧
    (∀ a, (MemoryManager.first_fit_allocate (align_size n) s.memory_blocks).1 = some a →
      ∃ pre b post, s.memory_blocks = pre ++ b :: post ∧ b.is_free = true ∧
        align_size n ≤ b.size ∧ a = b.address ∧
        ∀ c ∈ pre, ¬(c.is_free = true ∧ align_size n ≤ c.size)) ∧
    ((MemoryManager.first_fit_allocate (align_size n) s.memory_blocks).1 = none →
      ∀ c ∈ s.memory_blocks, ¬(c.is_free = true ∧ align_size n ≤ c.size)) := by
  refine ⟨?_, (MemoryManager.first_fit_spec (align_size n) s.memory_blocks).1,
    (MemoryManager.first_fit_spec (align_size n) s.memory_blocks).2⟩
  rw [MemoryManager.allocate_eq s n h0]
  cases hr : (MemoryManager.first_fit_allocate (align_size n) s.memory_blocks).1 with
  | some a => rfl
  | none => rfl

/-- Witness for C4 (amended): the size-positivity hypothesis discharged
on the counterexample state, where the table-order result is 1056. -/
theorem c4_first_fit_table_order_witness :
    (MemoryManager.allocate (runMOps (MemoryManager.initMM 1024 48)
        [.alloc 16, .alloc 16, .dealloc 1024, .alloc 8]) 8).1 =
      (MemoryManager.first_fit_allocate (align_size 8)
        (runMOps (MemoryManager.initMM 1024 48)
          [.alloc 16, .alloc 16, .dealloc 1024, .alloc 8]).memory_blocks).1 :=
  (c4_first_fit_table_order (runMOps (MemoryManager.initMM 1024 48)
    [.alloc 16, .alloc 16, .dealloc 1024, .alloc 8]) 8 (by decide)).1

/-! ### Page mapper (claim C6) -/

theorem mul4096_lor_eq_add (a b : Nat) (h : b < 4096) :
    (a * 4096) ||| b = a * 4096 + b := by
  have h2 := (Nat.mul_add_lt_is_or (show b < 2 ^ 12 from h) a).symm
  have h3 : 4096 * a ||| b = 4096 * a + b := by
    norm_num at h2 ⊢
    exact h2
  rw [Nat.mul_comm a 4096]
  exact h3

namespace MemoryManager

theorem allocate_pages_fixed (s : MMState) (n : Nat) :
    (allocate s n).2.page_table = s.page_table ∧
    (allocate s n).2.next_virtual_address = s.next_virtual_address := by
  by_cases h0 : n = 0
  · subst h0
    rw [allocate_zero]
    exact ⟨rfl, rfl⟩
  · rw [allocate_eq s n h0]
    cases hr : (first_fit_allocate (align_size n) s.memory_blocks).1 with
    | some a => exact ⟨rfl, rfl⟩
    | none => exact ⟨rfl, rfl⟩

theorem allocate_aligned_eq (s : MMState) (n align : Nat)
    (hp : ¬(align = 0 ∨ align &&& (align - 1) ≠ 0)) :
    allocate_aligned s n align =
      (match (allocate s ((n + align - 1) % U64)).1 with
        | some addr => (some ((addr + align - 1) % U64 / align * align),
            (allocate s ((n + align - 1) % U64)).2)
        | none => (none, (allocate s ((n + align - 1) % U64)).2)) := by
  unfold allocate_aligned
  rw [if_neg hp]

theorem allocate_aligned_pages_fixed (s : MMState) (n align : Nat) :
    (allocate_aligned s n align).2.page_table = s.page_table ∧
    (allocate_aligned s n align).2.next_virtual_address = s.next_virtual_address := by
  by_cases hp : align = 0 ∨ align &&& (align - 1) ≠ 0
  · unfold allocate_aligned
    rw [if_pos hp]
    exact ⟨rfl, rfl⟩
  · rw [allocate_aligned_eq s n align hp]
    cases hr : (allocate s ((n + align - 1) % U64)).1 with
    | some addr => exact allocate_pages_fixed s _
    | none => exact allocate_pages_fixed s _

theorem deallocate_pages_fixed (s : MMState) (ptr : Nat) :
    (deallocate s ptr).2.page_table = s.page_table ∧
    (deallocate s ptr).2.next_virtual_address = s.next_virtual_address := by
  by_cases hp : ptr = 0
  · subst hp
    unfold deallocate
    rw [if_pos rfl]
    exact ⟨rfl, rfl⟩
  · cases hl : assocLookup ptr s.allocated_blocks with
    | none =>
        rw [deallocate_not_found s ptr hp hl]
        exact ⟨rfl, rfl⟩
    | some sz =>
        rw [deallocate_found s ptr sz hp hl]
        exact ⟨rfl, rfl⟩

theorem allocate_for_process_eq (s : MMState) (pid : Int) (n : Nat) :
    allocate_for_process s pid n =
      (match (allocate s n).1 with
        | some a => (some a, { (allocate s n).2 with
            memory_blocks := markOwnerFirst a pid (allocate s n).2.memory_blocks })
        | none => allocate s n) := by
  unfold allocate_for_process
  rfl

theorem allocate_for_process_pages_fixed (s : MMState) (pid : Int) (n : Nat) :
    (allocate_for_process s pid n).2.page_table = s.page_table ∧
    (allocate_for_process s pid n).2.next_virtual_address = s.next_virtual_address := by
  rw [allocate_for_process_eq s pid n]
  cases hr : (allocate s n).1 with
  | some a => exact allocate_pages_fixed s n
  | none => exact allocate_pages_fixed s n

end MemoryManager

/-- Structural page-mapper invariant: the table keeps its 1024 entries
and the virtual counter stays page-aligned below `2 ^ 64`. -/
def PageInv (s : MMState) : Prop :=
  s.page_table.length = 1024 ∧ PAGE_SIZE ∣ s.next_virtual_address ∧
  s.next_virtual_address < U64

/-- Every block's span lies inside `[lo, hi)`. -/
def blocksWithin (lo hi : Nat) (bs : List MemoryBlock) : Prop :=
  ∀ b ∈ bs, lo ≤ b.address ∧ b.address + b.size ≤ hi

/-- Every block's span lies inside the arena. -/
def BlocksIn (s : MMState) : Prop :=
  blocksWithin s.memory_pool (s.memory_pool + s.pool_size) s.memory_blocks

namespace MemoryManager

theorem within_first_fit (req lo hi : Nat) (bs : List MemoryBlock)
    (h : blocksWithin lo hi bs) : blocksWithin lo hi (first_fit_allocate req bs).2 := by
  induction bs with
  | nil =>
      rw [first_fit_allocate]
      intro b hb
      cases hb
  | cons b rest ih =>
      have hb := h b (List.mem_cons_self _ _)
      have hrest : blocksWithin lo hi rest := fun c hc => h c (List.mem_cons_of_mem _ hc)
      by_cases hc : b.is_free = true ∧ req ≤ b.size
      · rw [first_fit_cons_pos req b rest hc]
        intro x hx
        rcases List.mem_cons.1 hx with h' | h'
        · rw [h']
          constructor
          · exact hb.1
          · show b.address + req ≤ hi
            have := hc.2
            omega
        · rcases List.mem_append.1 h' with h'' | h''
          · exact hrest x h''
          · by_cases hlt : req < b.size
            · rw [if_pos hlt] at h''
              rcases List.mem_singleton.1 h'' with rfl
              constructor
              · show lo ≤ b.address + req
                omega
              · show b.address + req + (b.size - req) ≤ hi
                have := hc.2
                omega
            · rw [if_neg hlt] at h''
              cases h''
      · rw [first_fit_cons_neg req b rest hc]
        intro x hx
        rcases List.mem_cons.1 hx with h' | h'
        · rw [h']
          exact hb
        · exact ih hrest x h'

theorem within_markFreeFirst (p lo hi : Nat) (bs : List MemoryBlock)
    (h : blocksWithin lo hi bs) : blocksWithin lo hi (markFreeFirst p bs) := by
  induction bs with
  | nil => intro b hb; cases hb
  | cons b rest ih =>
      have hb := h b (List.mem_cons_self _ _)
      have hrest : blocksWithin lo hi rest := fun c hc => h c (List.mem_cons_of_mem _ hc)
      unfold markFreeFirst
      by_cases h' : b.address = p
      · rw [if_pos h']
        intro x hx
        rcases List.mem_cons.1 hx with h'' | h''
        · rw [h'']
          exact hb
        · exact hrest x h''
      · rw [if_neg h']
        intro x hx
        rcases List.mem_cons.1 hx with h'' | h''
        · rw [h'']
          exact hb
        · exact ih hrest x h''

theorem within_markOwnerFirst (p : Nat) (pid : Int) (lo hi : Nat) (bs : List MemoryBlock)
    (h : blocksWithin lo hi bs) : blocksWithin lo hi (markOwnerFirst p pid bs) := by
  induction bs with
  | nil => intro b hb; cases hb
  | cons b rest ih =>
      have hb := h b (List.mem_cons_self _ _)
      have hrest : blocksWithin lo hi rest := fun c hc => h c (List.mem_cons_of_mem _ hc)
      unfold markOwnerFirst
      by_cases h' : b.address = p
      · rw [if_pos h']
        intro x hx
        rcases List.mem_cons.1 hx with h'' | h''
        · rw [h'']
          exact hb
        · exact hrest x h''
      · rw [if_neg h']
        intro x hx
        rcases List.mem_cons.1 hx with h'' | h''
        · rw [h'']
          exact hb
        · exact ih hrest x h''

theorem within_map (f : MemoryBlock → MemoryBlock)
    (hf : ∀ b, (f b).address = b.address ∧ (f b).size = b.size)
    (lo hi : Nat) (bs : List MemoryBlock) (h : blocksWithin lo hi bs) :
    blocksWithin lo hi (bs.map f) := by
  intro x hx
  obtain ⟨y, hy, hxy⟩ := List.mem_map.1 hx
  have := h y hy
  rw [← hxy, (hf y).1, (hf y).2]
  exact this

theorem within_sort (lo hi : Nat) (bs : List MemoryBlock) (h : blocksWithin lo hi bs) :
    blocksWithin lo hi (sort_blocks bs) := by
  intro x hx
  exact h x ((List.perm_insertionSort _ bs).mem_iff.1 hx)

theorem within_merge_from (lo hi : Nat) (cur : MemoryBlock) (rest : List MemoryBlock)
    (h : blocksWithin lo hi (cur :: rest)) : blocksWithin lo hi (merge_from cur rest) := by
  induction rest generalizing cur with
  | nil =>
      rw [merge_from]
      intro x hx
      rcases List.mem_singleton.1 hx with rfl
      exact h x (List.mem_cons_self _ _)
  | cons b rest ih =>
      have hcur := h cur (List.mem_cons_self _ _)
      have hb := h b (List.mem_cons_of_mem _ (List.mem_cons_self _ _))
      have hrest : blocksWithin lo hi rest := fun c hc =>
        h c (List.mem_cons_of_mem _ (List.mem_cons_of_mem _ hc))
      by_cases hc : cur.is_free = true ∧ b.is_free = true ∧
          cur.address + cur.size = b.address
      · rw [merge_from, if_pos hc]
        apply ih
        intro x hx
        rcases List.mem_cons.1 hx with h' | h'
        · rw [h']
          refine ⟨hcur.1, ?_⟩
          show cur.address + (cur.size + b.size) ≤ hi
          have h1 := hc.2.2
          have h2 := hb.2
          omega
        · exact hrest x h'
      · rw [merge_from, if_neg hc]
        intro x hx
        rcases List.mem_cons.1 hx with h' | h'
        · rw [h']
          exact hcur
        · refine ih b ?_ x h'
          intro c hcm
          rcases List.mem_cons.1 hcm with h'' | h''
          · rw [h'']
            exact hb
          · exact hrest c h''

theorem within_coalesce (lo hi : Nat) (bs : List MemoryBlock)
    (h : blocksWithin lo hi bs) : blocksWithin lo hi (coalesce_free_blocks bs) := by
  have hs := within_sort lo hi bs h
  show blocksWithin lo hi (merge_adjacent (sort_blocks bs))
  cases hl : sort_blocks bs with
  | nil => intro b hb; cases hb
  | cons c rest =>
      rw [hl] at hs
      exact within_merge_from lo hi c rest hs

end MemoryManager

namespace MemoryManager

/-- The entry `map_page` writes: the 40-bit frame of `p` plus `present`. -/
def writtenEntry (e : PageTableEntry) (p : Nat) : PageTableEntry :=
  { e with physical_address := (p >>> 12) % 2 ^ 40, present := true }

/-- The entry `unmap_page` leaves: frame and `present` cleared. -/
def clearedEntry (e : PageTableEntry) : PageTableEntry :=
  { e with physical_address := 0, present := false }

theorem map_page_eq (s : MMState) (v p : Nat) :
    map_page s v p =
      (match s.page_table.get? (pageIndex v) with
        | some e =>
            (true, { s with page_table := s.page_table.set (pageIndex v) (writtenEntry e p) })
        | none => (false, s)) := by
  unfold map_page
  rfl

theorem unmap_page_eq (s : MMState) (v : Nat) :
    unmap_page s v =
      (match s.page_table.get? (pageIndex v) with
        | some e =>
            { s with page_table := s.page_table.set (pageIndex v) (clearedEntry e) }
        | none => s) := by
  unfold unmap_page
  rfl

set_option maxRecDepth 8192 in
theorem allocate_virtual_page_eq (s : MMState) :
    allocate_virtual_page s =
      (match (allocate_aligned s PAGE_SIZE PAGE_SIZE).1 with
        | some page =>
            (some (allocate_aligned s PAGE_SIZE PAGE_SIZE).2.next_virtual_address,
              (map_page { (allocate_aligned s PAGE_SIZE PAGE_SIZE).2 with
                  next_virtual_address :=
                    ((allocate_aligned s PAGE_SIZE PAGE_SIZE).2.next_virtual_address +
                      PAGE_SIZE) % U64 }
                (allocate_aligned s PAGE_SIZE PAGE_SIZE).2.next_virtual_address page).2)
        | none => (none, (allocate_aligned s PAGE_SIZE PAGE_SIZE).2)) := by
  unfold allocate_virtual_page
  rfl

theorem free_virtual_page_eq (s : MMState) (v : Nat) :
    free_virtual_page s v =
      (if virtual_to_physical s v ≠ 0 then
        (deallocate (unmap_page s v) (virtual_to_physical s v)).2
      else s) := by
  unfold free_virtual_page
  rfl

theorem blocksIn_allocate (s : MMState) (n : Nat) (h : BlocksIn s) :
    BlocksIn (allocate s n).2 := by
  by_cases h0 : n = 0
  · subst h0
    rw [allocate_zero]
    exact h
  · rw [allocate_eq s n h0]
    cases hr : (first_fit_allocate (align_size n) s.memory_blocks).1 with
    | some a =>
        show blocksWithin s.memory_pool (s.memory_pool + s.pool_size)
          (first_fit_allocate (align_size n) s.memory_blocks).2
        exact within_first_fit _ _ _ _ h
    | none => exact h

theorem blocksIn_allocate_aligned (s : MMState) (n align : Nat) (h : BlocksIn s) :
    BlocksIn (allocate_aligned s n align).2 := by
  by_cases hp : align = 0 ∨ align &&& (align - 1) ≠ 0
  · unfold allocate_aligned
    rw [if_pos hp]
    exact h
  · rw [allocate_aligned_eq s n align hp]
    cases hr : (allocate s ((n + align - 1) % U64)).1 with
    | some addr => exact blocksIn_allocate s _ h
    | none => exact blocksIn_allocate s _ h

theorem blocksIn_deallocate (s : MMState) (ptr : Nat) (h : BlocksIn s) :
    BlocksIn (deallocate s ptr).2 := by
  by_cases hp : ptr = 0
  · subst hp
    unfold deallocate
    rw [if_pos rfl]
    exact h
  · cases hl : assocLookup ptr s.allocated_blocks with
    | none =>
        rw [deallocate_not_found s ptr hp hl]
        exact h
    | some sz =>
        rw [deallocate_found s ptr sz hp hl]
        show blocksWithin s.memory_pool (s.memory_pool + s.pool_size)
          (coalesce_free_blocks (markFreeFirst ptr s.memory_blocks))
        exact within_coalesce _ _ _ (within_markFreeFirst _ _ _ _ h)

theorem blocksIn_allocate_for_process (s : MMState) (pid : Int) (n : Nat) (h : BlocksIn s) :
    BlocksIn (allocate_for_process s pid n).2 := by
  rw [allocate_for_process_eq s pid n]
  cases hr : (allocate s n).1 with
  | some a =>
      have h1 := blocksIn_allocate s n h
      have h2 := (memEquiv_allocate s n).1
      have h3 := (memEquiv_allocate s n).2.1
      show blocksWithin ((allocate s n).2.memory_pool)
        ((allocate s n).2.memory_pool + (allocate s n).2.pool_size)
        (markOwnerFirst a pid (allocate s n).2.memory_blocks)
      exact within_markOwnerFirst _ _ _ _ _ h1
  | none => exact blocksIn_allocate s n h

theorem blocksIn_deallocate_process_memory (s : MMState) (pid : Int) (h : BlocksIn s) :
    BlocksIn (deallocate_process_memory s pid) := by
  show blocksWithin s.memory_pool (s.memory_pool + s.pool_size)
    (coalesce_free_blocks (s.memory_blocks.map (fun b =>
      if b.process_id = pid ∧ b.is_free = false then
        { b with is_free := true, process_id := -1 } else b)))
  refine within_coalesce _ _ _ (within_map _ (fun b => ?_) _ _ _ h)
  by_cases hb : b.process_id = pid ∧ b.is_free = false
  · rw [if_pos hb]
    exact ⟨rfl, rfl⟩
  · rw [if_neg hb]
    exact ⟨rfl, rfl⟩

theorem blocksIn_map_page (s : MMState) (v p : Nat) (h : BlocksIn s) :
    BlocksIn (map_page s v p).2 := by
  rw [map_page_eq]
  cases hg : s.page_table.get? (pageIndex v) with
  | some e => exact h
  | none => exact h

theorem blocksIn_unmap_page (s : MMState) (v : Nat) (h : BlocksIn s) :
    BlocksIn (unmap_page s v) := by
  rw [unmap_page_eq]
  cases hg : s.page_table.get? (pageIndex v) with
  | some e => exact h
  | none => exact h

set_option maxRecDepth 8192 in
theorem blocksIn_page_alloc (s : MMState) (h : BlocksIn s) :
    BlocksIn (allocate_virtual_page s).2 := by
  rw [allocate_virtual_page_eq]
  cases hr : (allocate_aligned s PAGE_SIZE PAGE_SIZE).1 with
  | some page =>
      exact blocksIn_map_page _ _ _ (blocksIn_allocate_aligned s PAGE_SIZE PAGE_SIZE h)
  | none => exact blocksIn_allocate_aligned s PAGE_SIZE PAGE_SIZE h

theorem blocksIn_page_free (s : MMState) (v : Nat) (h : BlocksIn s) :
    BlocksIn (free_virtual_page s v) := by
  rw [free_virtual_page_eq]
  by_cases hphys : virtual_to_physical s v ≠ 0
  · rw [if_pos hphys]
    exact blocksIn_deallocate _ _ (blocksIn_unmap_page s v h)
  · rw [if_neg hphys]
    exact h

end MemoryManager

theorem blocksIn_applyMOp (s : MMState) (op : MOp) (h : BlocksIn s) :
    BlocksIn (applyMOp s op) := by
  cases op with
  | alloc n => exact MemoryManager.blocksIn_allocate s n h
  | allocFor pid n => exact MemoryManager.blocksIn_allocate_for_process s pid n h
  | dealloc ptr => exact MemoryManager.blocksIn_deallocate s ptr h
  | deallocProc pid => exact MemoryManager.blocksIn_deallocate_process_memory s pid h
  | coalesceOp =>
      show blocksWithin s.memory_pool (s.memory_pool + s.pool_size)
        (MemoryManager.coalesce_free_blocks s.memory_blocks)
      exact MemoryManager.within_coalesce _ _ _ h
  | pageAlloc => exact MemoryManager.blocksIn_page_alloc s h
  | pageFree v => exact MemoryManager.blocksIn_page_free s v h
  | mapPageOp v p => exact MemoryManager.blocksIn_map_page s v p h
  | unmapPageOp v => exact MemoryManager.blocksIn_unmap_page s v h

namespace MemoryManager

theorem pageInv_map_page (s : MMState) (v p : Nat) (h : PageInv s) :
    PageInv (map_page s v p).2 := by
  rw [map_page_eq]
  cases hg : s.page_table.get? (pageIndex v) with
  | some e =>
      refine ⟨?_, h.2⟩
      show (s.page_table.set (pageIndex v) (writtenEntry e p)).length = 1024
      rw [List.length_set]
      exact h.1
  | none => exact h

theorem pageInv_unmap_page (s : MMState) (v : Nat) (h : PageInv s) :
    PageInv (unmap_page s v) := by
  rw [unmap_page_eq]
  cases hg : s.page_table.get? (pageIndex v) with
  | some e =>
      refine ⟨?_, h.2⟩
      show (s.page_table.set (pageIndex v) (clearedEntry e)).length = 1024
      rw [List.length_set]
      exact h.1
  | none => exact h

theorem pageInv_allocate (s : MMState) (n : Nat) (h : PageInv s) :
    PageInv (allocate s n).2 := by
  obtain ⟨h1, h2⟩ := allocate_pages_fixed s n
  exact ⟨h1 ▸ h.1, h2 ▸ h.2.1, h2 ▸ h.2.2⟩

theorem pageInv_allocate_aligned (s : MMState) (n align : Nat) (h : PageInv s) :
    PageInv (allocate_aligned s n align).2 := by
  obtain ⟨h1, h2⟩ := allocate_aligned_pages_fixed s n align
  exact ⟨h1 ▸ h.1, h2 ▸ h.2.1, h2 ▸ h.2.2⟩

theorem pageInv_deallocate (s : MMState) (ptr : Nat) (h : PageInv s) :
    PageInv (deallocate s ptr).2 := by
  obtain ⟨h1, h2⟩ := deallocate_pages_fixed s ptr
  exact ⟨h1 ▸ h.1, h2 ▸ h.2.1, h2 ▸ h.2.2⟩

theorem pageInv_allocate_for_process (s : MMState) (pid : Int) (n : Nat) (h : PageInv s) :
    PageInv (allocate_for_process s pid n).2 := by
  obtain ⟨h1, h2⟩ := allocate_for_process_pages_fixed s pid n
  exact ⟨h1 ▸ h.1, h2 ▸ h.2.1, h2 ▸ h.2.2⟩

set_option maxRecDepth 8192 in
theorem pageInv_page_alloc (s : MMState) (h : PageInv s) :
    PageInv (allocate_virtual_page s).2 := by
  rw [allocate_virtual_page_eq]
  cases hr : (allocate_aligned s PAGE_SIZE PAGE_SIZE).1 with
  | none => exact pageInv_allocate_aligned s PAGE_SIZE PAGE_SIZE h
  | some page =>
      have hal := pageInv_allocate_aligned s PAGE_SIZE PAGE_SIZE h
      set t := (allocate_aligned s PAGE_SIZE PAGE_SIZE).2 with ht
      have hmid : PageInv { t with
          next_virtual_address := (t.next_virtual_address + PAGE_SIZE) % U64 } := by
        refine ⟨hal.1, ?_, ?_⟩
        · show PAGE_SIZE ∣ (t.next_virtual_address + PAGE_SIZE) % U64
          have hd : PAGE_SIZE ∣ U64 := by
            show (4096 : Nat) ∣ 2 ^ 64
            exact ⟨2 ^ 52, by norm_num⟩
          exact (Nat.dvd_mod_iff hd).2 (Nat.dvd_add hal.2.1 dvd_rfl)
        · show (t.next_virtual_address + PAGE_SIZE) % U64 < U64
          exact Nat.mod_lt _ (by show 0 < 2 ^ 64; positivity)
      exact pageInv_map_page _ _ _ hmid

theorem pageInv_page_free (s : MMState) (v : Nat) (h : PageInv s) :
    PageInv (free_virtual_page s v) := by
  rw [free_virtual_page_eq]
  by_cases hphys : virtual_to_physical s v ≠ 0
  · rw [if_pos hphys]
    exact pageInv_deallocate _ _ (pageInv_unmap_page s v h)
  · rw [if_neg hphys]
    exact h

end MemoryManager

theorem pageInv_applyMOp (s : MMState) (op : MOp) (h : PageInv s) :
    PageInv (applyMOp s op) := by
  cases op with
  | alloc n => exact MemoryManager.pageInv_allocate s n h
  | allocFor pid n => exact MemoryManager.pageInv_allocate_for_process s pid n h
  | dealloc ptr => exact MemoryManager.pageInv_deallocate s ptr h
  | deallocProc pid => exact h
  | coalesceOp => exact h
  | pageAlloc => exact MemoryManager.pageInv_page_alloc s h
  | pageFree v => exact MemoryManager.pageInv_page_free s v h
  | mapPageOp v p => exact MemoryManager.pageInv_map_page s v p h
  | unmapPageOp v => exact MemoryManager.pageInv_unmap_page s v h

/-- The combined structural invariant used by the page round-trip proof. -/
def MInv (s : MMState) : Prop := PageInv s ∧ BlocksIn s

theorem minv_applyMOp (s : MMState) (op : MOp) (h : MInv s) : MInv (applyMOp s op) :=
  ⟨pageInv_applyMOp s op h.1, blocksIn_applyMOp s op h.2⟩

theorem minv_initMM (base n : Nat) : MInv (MemoryManager.initMM base n) := by
  refine ⟨⟨?_, ?_, ?_⟩, ?_⟩
  · show (List.replicate 1024 _).length = 1024
    rw [List.length_replicate]
  · show (4096 : Nat) ∣ 16777216
    exact ⟨4096, by norm_num⟩
  · show (16777216 : Nat) < 2 ^ 64
    norm_num
  · intro b hb
    rcases List.mem_singleton.1 hb with rfl
    exact ⟨le_refl _, le_refl _⟩

theorem minv_runMOps : ∀ (ops : List MOp) (s : MMState), MInv s → MInv (runMOps s ops) := by
  intro ops
  induction ops with
  | nil => exact fun s h => h
  | cons op ops ih =>
      intro s h
      rw [runMOps, List.foldl_cons]
      exact ih (applyMOp s op) (minv_applyMOp s op h)

theorem pageIndex_inj (x y : Nat) (hx : x < U64) (hy : y < U64)
    (dx : PAGE_SIZE ∣ x) (dy : PAGE_SIZE ∣ y)
    (h : MemoryManager.pageIndex x = MemoryManager.pageIndex y) : x = y := by
  unfold MemoryManager.pageIndex at h
  simp only [PAGE_SIZE, U64, VIRTUAL_BASE] at *
  omega

/-- The slot of `p` is mapped to a nonzero frame. -/
def GoodAt (p : Nat) (s : MMState) : Prop :=
  ∃ e, s.page_table.get? (MemoryManager.pageIndex p) = some e ∧ e.present = true ∧
    e.physical_address ≠ 0

/-- Which operations leave the translation of page `p` intact: everything
except an explicit remap/unmap of `p`'s own slot — the public interface
only ever frees whole pages, so a benign `pageFree` argument is a page
(64-bit, page-aligned) other than `p`. -/
def BenignFor (p : Nat) : MOp → Prop
  | .pageFree a => a < U64 ∧ PAGE_SIZE ∣ a ∧ a ≠ p
  | .mapPageOp _ _ => False
  | .unmapPageOp _ => False
  | _ => True

instance (p : Nat) (op : MOp) : Decidable (BenignFor p op) := by
  cases op <;> simp [BenignFor] <;> infer_instance

namespace MemoryManager

theorem virtual_to_physical_some (s : MMState) (v : Nat) (e : PageTableEntry)
    (hg : s.page_table.get? (pageIndex v) = some e) (hp : e.present = true) :
    virtual_to_physical s v = e.physical_address * PAGE_SIZE + v % PAGE_SIZE := by
  unfold virtual_to_physical
  rw [hg]
  show (if e.present = true then (e.physical_address <<< 12) ||| (v % PAGE_SIZE) else 0) = _
  rw [if_pos hp]
  have h1 : e.physical_address <<< 12 = e.physical_address * 4096 := by
    rw [Nat.shiftLeft_eq]
  rw [h1]
  exact mul4096_lor_eq_add _ _ (Nat.mod_lt v (by decide))

theorem virtual_to_physical_not_present (s : MMState) (v : Nat) (e : PageTableEntry)
    (hg : s.page_table.get? (pageIndex v) = some e) (hp : e.present = false) :
    virtual_to_physical s v = 0 := by
  unfold virtual_to_physical
  rw [hg]
  show (if e.present = true then (e.physical_address <<< 12) ||| (v % PAGE_SIZE) else 0) = 0
  rw [if_neg (by rw [hp]; exact fun h => Bool.noConfusion h)]

end MemoryManager

theorem v2p_ne_zero_of_goodAt (p : Nat) (s : MMState) (h : GoodAt p s) :
    MemoryManager.virtual_to_physical s p ≠ 0 := by
  obtain ⟨e, hg, hp, hnz⟩ := h
  rw [MemoryManager.virtual_to_physical_some s p e hg hp]
  have h1 : 1 ≤ e.physical_address := Nat.one_le_iff_ne_zero.2 hnz
  rw [show PAGE_SIZE = 4096 from rfl]
  omega

theorem page_bounds_of_aligned_alloc (s : MMState) (page : Nat)
    (hbase : PAGE_SIZE ≤ s.memory_pool)
    (hbound : s.memory_pool + s.pool_size + PAGE_SIZE < 2 ^ 52)
    (hin : BlocksIn s)
    (h : (MemoryManager.allocate_aligned s PAGE_SIZE PAGE_SIZE).1 = some page) :
    PAGE_SIZE ≤ page ∧ page < 2 ^ 52 := by
  have hp : ¬(PAGE_SIZE = 0 ∨ PAGE_SIZE &&& (PAGE_SIZE - 1) ≠ 0) := by decide
  rw [MemoryManager.allocate_aligned_eq s PAGE_SIZE PAGE_SIZE hp] at h
  cases hr : (MemoryManager.allocate s ((PAGE_SIZE + PAGE_SIZE - 1) % U64)).1 with
  | none =>
      rw [hr] at h
      cases h
  | some addr =>
      rw [hr] at h
      have hpage : page = (addr + PAGE_SIZE - 1) % U64 / PAGE_SIZE * PAGE_SIZE :=
        (Option.some.inj h).symm
      have hreq : ((PAGE_SIZE + PAGE_SIZE - 1) % U64) ≠ 0 := by decide
      rw [MemoryManager.allocate_eq s _ hreq] at hr
      have hff : (MemoryManager.first_fit_allocate
          (align_size ((PAGE_SIZE + PAGE_SIZE - 1) % U64)) s.memory_blocks).1 = some addr := by
        cases hf2 : (MemoryManager.first_fit_allocate
            (align_size ((PAGE_SIZE + PAGE_SIZE - 1) % U64)) s.memory_blocks).1 with
        | some a =>
            rw [hf2] at hr
            exact hr
        | none =>
            rw [hf2] at hr
            exact hr
      obtain ⟨pre, b, post, heq, hfree, hsz, ha, hpre⟩ :=
        (MemoryManager.first_fit_spec _ _).1 addr hff
      have hbmem : b ∈ s.memory_blocks := by
        rw [heq]
        exact List.mem_append.2 (.inr (List.mem_cons_self _ _))
      have hb := hin b hbmem
      rw [show align_size ((PAGE_SIZE + PAGE_SIZE - 1) % U64) = 8192 from by decide] at hsz
      have hps : PAGE_SIZE = 4096 := rfl
      have hu : U64 = 2 ^ 64 := rfl
      rw [hps, hu] at hpage
      rw [hps] at hbase hbound ⊢
      constructor
      · omega
      · omega

theorem goodAt_pt_eq (p : Nat) (s : MMState) (t : MMState)
    (hpt : t.page_table = s.page_table) (h : GoodAt p s) : GoodAt p t := by
  obtain ⟨e, hg, hp1, hnz⟩ := h
  exact ⟨e, by rw [hpt]; exact hg, hp1, hnz⟩

theorem goodAt_applyMOp (p : Nat) (s : MMState) (op : MOp)
    (hbase : PAGE_SIZE ≤ s.memory_pool)
    (hbound : s.memory_pool + s.pool_size + PAGE_SIZE < 2 ^ 52)
    (hinv : MInv s) (hpal : PAGE_SIZE ∣ p) (hplt : p < U64)
    (hben : BenignFor p op) (h : GoodAt p s) : GoodAt p (applyMOp s op) := by
  cases op with
  | alloc n =>
      exact goodAt_pt_eq p s _ (MemoryManager.allocate_pages_fixed s n).1 h
  | allocFor pid n =>
      exact goodAt_pt_eq p s _ (MemoryManager.allocate_for_process_pages_fixed s pid n).1 h
  | dealloc ptr =>
      exact goodAt_pt_eq p s _ (MemoryManager.deallocate_pages_fixed s ptr).1 h
  | deallocProc pid =>
      exact goodAt_pt_eq p s _ rfl h
  | coalesceOp =>
      exact goodAt_pt_eq p s _ rfl h
  | mapPageOp v q => exact hben.elim
  | unmapPageOp v => exact hben.elim
  | pageAlloc =>
      show GoodAt p (MemoryManager.allocate_virtual_page s).2
      rw [MemoryManager.allocate_virtual_page_eq s]
      cases hr : (MemoryManager.allocate_aligned s PAGE_SIZE PAGE_SIZE).1 with
      | none =>
          exact goodAt_pt_eq p s _ (MemoryManager.allocate_aligned_pages_fixed s _ _).1 h
      | some page =>
          show GoodAt p (MemoryManager.map_page
            { (MemoryManager.allocate_aligned s PAGE_SIZE PAGE_SIZE).2 with
                next_virtual_address :=
                  ((MemoryManager.allocate_aligned s PAGE_SIZE PAGE_SIZE).2.next_virtual_address +
                    PAGE_SIZE) % U64 }
            (MemoryManager.allocate_aligned s PAGE_SIZE PAGE_SIZE).2.next_virtual_address page).2
          have hpt1 : ({ (MemoryManager.allocate_aligned s PAGE_SIZE PAGE_SIZE).2 with
              next_virtual_address :=
                ((MemoryManager.allocate_aligned s PAGE_SIZE PAGE_SIZE).2.next_virtual_address +
                  PAGE_SIZE) % U64 } : MMState).page_table = s.page_table :=
            (MemoryManager.allocate_aligned_pages_fixed s PAGE_SIZE PAGE_SIZE).1
          rw [MemoryManager.map_page_eq, hpt1]
          cases hg2 : s.page_table.get? (MemoryManager.pageIndex
              (MemoryManager.allocate_aligned s PAGE_SIZE PAGE_SIZE).2.next_virtual_address) with
          | none => exact goodAt_pt_eq p s _ hpt1 h
          | some e2 =>
              by_cases hix : MemoryManager.pageIndex
                  (MemoryManager.allocate_aligned s PAGE_SIZE PAGE_SIZE).2.next_virtual_address =
                  MemoryManager.pageIndex p
              · obtain ⟨hp1, hp2⟩ := page_bounds_of_aligned_alloc s page hbase hbound hinv.2 hr
                obtain ⟨e, hg, _, _⟩ := h
                have hlt0 := (List.get?_eq_some.1 hg).1
                refine ⟨MemoryManager.writtenEntry e2 page, ?_, rfl, ?_⟩
                · show (s.page_table.set (MemoryManager.pageIndex
                      (MemoryManager.allocate_aligned s PAGE_SIZE
                        PAGE_SIZE).2.next_virtual_address)
                      (MemoryManager.writtenEntry e2 page)).get? (MemoryManager.pageIndex p) =
                    some (MemoryManager.writtenEntry e2 page)
                  rw [hix]
                  exact List.get?_set_eq_of_lt _ hlt0
                · show (page >>> 12) % 2 ^ 40 ≠ 0
                  rw [Nat.shiftRight_eq_div_pow]
                  rw [show PAGE_SIZE = 4096 from rfl] at hp1
                  omega
              · obtain ⟨e, hg, hp1, hnz⟩ := h
                refine ⟨e, ?_, hp1, hnz⟩
                show (s.page_table.set (MemoryManager.pageIndex
                    (MemoryManager.allocate_aligned s PAGE_SIZE
                      PAGE_SIZE).2.next_virtual_address)
                    (MemoryManager.writtenEntry e2 page)).get? (MemoryManager.pageIndex p) =
                  some e
                rw [List.get?_set_ne _ _ hix]
                exact hg
  | pageFree a =>
      obtain ⟨halt, hadvd, hane⟩ := hben
      show GoodAt p (MemoryManager.free_virtual_page s a)
      rw [MemoryManager.free_virtual_page_eq]
      by_cases hz : MemoryManager.virtual_to_physical s a ≠ 0
      · rw [if_pos hz]
        obtain ⟨e, hg, hp1, hnz⟩ := h
        refine ⟨e, ?_, hp1, hnz⟩
        rw [(MemoryManager.deallocate_pages_fixed _ _).1]
        rw [MemoryManager.unmap_page_eq]
        cases hg2 : s.page_table.get? (MemoryManager.pageIndex a) with
        | none => exact hg
        | some e2 =>
            show (s.page_table.set (MemoryManager.pageIndex a)
              (MemoryManager.clearedEntry e2)).get? (MemoryManager.pageIndex p) = some e
            have hne : MemoryManager.pageIndex a ≠ MemoryManager.pageIndex p :=
              fun hsame => hane (pageIndex_inj a p halt hplt hadvd hpal hsame)
            rw [List.get?_set_ne _ _ hne]
            exact hg
      · rw [if_neg hz]
        exact h

theorem goodAt_runMOps (p : Nat) : ∀ (ops : List MOp) (s : MMState),
    PAGE_SIZE ≤ s.memory_pool →
    s.memory_pool + s.pool_size + PAGE_SIZE < 2 ^ 52 →
    MInv s → PAGE_SIZE ∣ p → p < U64 →
    (∀ op ∈ ops, BenignFor p op) →
    GoodAt p s → GoodAt p (runMOps s ops) := by
  intro ops
  induction ops with
  | nil => exact fun s _ _ _ _ _ _ h7 => h7
  | cons op rest ih =>
      intro s h1 h2 h3 h4 h5 h6 h7
      show GoodAt p (runMOps (applyMOp s op) rest)
      have he := memEquiv_applyMOp s op
      exact ih (applyMOp s op)
        (by rw [he.1]; exact h1)
        (by rw [he.1, he.2.1]; exact h2)
        (minv_applyMOp s op h3) h4 h5
        (fun o ho => h6 o (List.mem_cons_of_mem _ ho))
        (goodAt_applyMOp p s op h1 h2 h3 h4 h5 (h6 op (List.mem_cons_self _ _)) h7)

theorem goodAt_pageAlloc_self (s1 : MMState)
    (hbase : PAGE_SIZE ≤ s1.memory_pool)
    (hbound : s1.memory_pool + s1.pool_size + PAGE_SIZE < 2 ^ 52)
    (hinv : MInv s1)
    (hidx : MemoryManager.pageIndex s1.next_virtual_address < 1024) :
    ∀ page, (MemoryManager.allocate_aligned s1 PAGE_SIZE PAGE_SIZE).1 = some page →
      GoodAt s1.next_virtual_address (MemoryManager.allocate_virtual_page s1).2 := by
  intro page hr
  rw [MemoryManager.allocate_virtual_page_eq s1, hr]
  show GoodAt s1.next_virtual_address (MemoryManager.map_page
    { (MemoryManager.allocate_aligned s1 PAGE_SIZE PAGE_SIZE).2 with
        next_virtual_address :=
          ((MemoryManager.allocate_aligned s1 PAGE_SIZE PAGE_SIZE).2.next_virtual_address +
            PAGE_SIZE) % U64 }
    (MemoryManager.allocate_aligned s1 PAGE_SIZE PAGE_SIZE).2.next_virtual_address page).2
  have hpt1 : ({ (MemoryManager.allocate_aligned s1 PAGE_SIZE PAGE_SIZE).2 with
      next_virtual_address :=
        ((MemoryManager.allocate_aligned s1 PAGE_SIZE PAGE_SIZE).2.next_virtual_address +
          PAGE_SIZE) % U64 } : MMState).page_table = s1.page_table :=
    (MemoryManager.allocate_aligned_pages_fixed s1 PAGE_SIZE PAGE_SIZE).1
  have hnv : (MemoryManager.allocate_aligned s1 PAGE_SIZE PAGE_SIZE).2.next_virtual_address =
      s1.next_virtual_address :=
    (MemoryManager.allocate_aligned_pages_fixed s1 PAGE_SIZE PAGE_SIZE).2
  rw [MemoryManager.map_page_eq, hpt1, hnv]
  have hlt : MemoryManager.pageIndex s1.next_virtual_address < s1.page_table.length := by
    rw [hinv.1.1]
    exact hidx
  have hg0 := List.get?_eq_get hlt
  rw [hg0]
  obtain ⟨hp1, hp2⟩ := page_bounds_of_aligned_alloc s1 page hbase hbound hinv.2 hr
  refine ⟨MemoryManager.writtenEntry
    (s1.page_table.get ⟨MemoryManager.pageIndex s1.next_virtual_address, hlt⟩) page,
    ?_, rfl, ?_⟩
  · show (s1.page_table.set (MemoryManager.pageIndex s1.next_virtual_address)
      (MemoryManager.writtenEntry
        (s1.page_table.get ⟨MemoryManager.pageIndex s1.next_virtual_address, hlt⟩) page)).get?
        (MemoryManager.pageIndex s1.next_virtual_address) =
      some (MemoryManager.writtenEntry
        (s1.page_table.get ⟨MemoryManager.pageIndex s1.next_virtual_address, hlt⟩) page)
    exact List.get?_set_eq_of_lt _ hlt
  · show (page >>> 12) % 2 ^ 40 ≠ 0
    rw [Nat.shiftRight_eq_div_pow]
    rw [show PAGE_SIZE = 4096 from rfl] at hp1
    omega

theorem v2p_free_self (s : MMState) (p : Nat) (h : GoodAt p s) :
    MemoryManager.virtual_to_physical (MemoryManager.free_virtual_page s p) p = 0 := by
  have hnz := v2p_ne_zero_of_goodAt p s h
  rw [MemoryManager.free_virtual_page_eq, if_pos hnz]
  obtain ⟨e, hg, hp1, _⟩ := h
  have hlt := (List.get?_eq_some.1 hg).1
  have hpt : (MemoryManager.deallocate (MemoryManager.unmap_page s p)
      (MemoryManager.virtual_to_physical s p)).2.page_table =
      (MemoryManager.unmap_page s p).page_table :=
    (MemoryManager.deallocate_pages_fixed _ _).1
  have hupt : (MemoryManager.unmap_page s p).page_table =
      s.page_table.set (MemoryManager.pageIndex p) (MemoryManager.clearedEntry e) := by
    rw [MemoryManager.unmap_page_eq, hg]
  refine MemoryManager.virtual_to_physical_not_present _ p (MemoryManager.clearedEntry e) ?_ rfl
  rw [hpt, hupt]
  exact List.get?_set_eq_of_lt _ hlt

theorem v2p_table (s : MMState) (L : List PageTableEntry) (v : Nat) (e : PageTableEntry)
    (hg : L.get? (MemoryManager.pageIndex v) = some e) (hp : e.present = true) :
    MemoryManager.virtual_to_physical { s with page_table := L } v =
      e.physical_address * PAGE_SIZE + v % PAGE_SIZE :=
  MemoryManager.virtual_to_physical_some _ v e hg hp

theorem map_roundtrip (s : MMState) (v q : Nat)
    (hvlt : MemoryManager.pageIndex v < s.page_table.length) (hq : q < 2 ^ 52) :
    (MemoryManager.map_page s v q).1 = true ∧
    MemoryManager.virtual_to_physical (MemoryManager.map_page s v q).2 v =
      q / PAGE_SIZE * PAGE_SIZE + v % PAGE_SIZE := by
  have hg0 := List.get?_eq_get hvlt
  rw [MemoryManager.map_page_eq, hg0]
  constructor
  · rfl
  · set e0 := s.page_table.get ⟨MemoryManager.pageIndex v, hvlt⟩ with he0
    set we := MemoryManager.writtenEntry e0 q with hwe
    have hgset : (s.page_table.set (MemoryManager.pageIndex v) we).get?
        (MemoryManager.pageIndex v) = some we :=
      List.get?_set_eq_of_lt _ hvlt
    show MemoryManager.virtual_to_physical
      { s with page_table := s.page_table.set (MemoryManager.pageIndex v) we } v =
      q / PAGE_SIZE * PAGE_SIZE + v % PAGE_SIZE
    rw [v2p_table s _ v we hgset (by rw [hwe]; rfl)]
    rw [hwe]
    show (q >>> 12) % 2 ^ 40 * PAGE_SIZE + v % PAGE_SIZE = _
    rw [Nat.shiftRight_eq_div_pow, show PAGE_SIZE = 4096 from rfl]
    have hmod : q / 2 ^ 12 % 2 ^ 40 = q / 4096 := by omega
    rw [hmod]

/-- C6, counterexample to the claim as stated: the page-table entry keeps
only 40 bits of the physical frame number (`physical_address : 40` in
`page_table_entry_t`), so `map_page` at physical address `2^52` reports
success yet stores frame 0, and `virtual_to_physical` then returns 0 -
not `2^52` (the physical address masked to a page boundary plus the
zero offset bits of the virtual base) as the claim requires. -/
theorem c6_counterexample :
    (MemoryManager.map_page (MemoryManager.initMM 65536 1024) VIRTUAL_BASE (2 ^ 52)).1 = true ∧
    MemoryManager.virtual_to_physical
      (MemoryManager.map_page (MemoryManager.initMM 65536 1024) VIRTUAL_BASE (2 ^ 52)).2
      VIRTUAL_BASE = 0 ∧
    2 ^ 52 / PAGE_SIZE * PAGE_SIZE + VIRTUAL_BASE % PAGE_SIZE = 2 ^ 52 ∧
    (0 : Nat) ≠ 2 ^ 52 := by
  refine ⟨by decide, by decide, by decide, by decide⟩

/-- C6 (amended): restricted to physical addresses below `2^52` (so that
the 40-bit frame field is not truncated) and to the 1024 slots the page
table actually has.  Start from any reachable state of an arena that
begins at or above one page and ends below `2^52`.  If
`allocate_virtual_page()` returns page `p` and `p`'s slot index is within
the 1024-entry table, then `virtual_to_physical(p)` is nonzero
immediately, stays nonzero across any further operations that do not
remap or unmap `p`'s own slot (any allocator call, and frees of other
pages), and becomes 0 after `free_virtual_page(p)`.  Moreover for every
virtual address `v` whose slot index is in bounds and every physical
address `q < 2^52`, `map_page(v, q)` succeeds and
`virtual_to_physical(v)` then returns `q` masked to a page boundary plus
the page-offset bits of `v`. -/
theorem c6_page_translation_amended (base n : Nat) (ops1 ops2 : List MOp) (p : Nat)
    (s2 : MMState)
    (hbase : PAGE_SIZE ≤ base)
    (hbound : base + n + PAGE_SIZE < 2 ^ 52)
    (hidx : MemoryManager.pageIndex p < 1024)
    (halloc : MemoryManager.allocate_virtual_page (runMOps (MemoryManager.initMM base n) ops1) =
      (some p, s2))
    (hben : ∀ op ∈ ops2, BenignFor p op) :
    MemoryManager.virtual_to_physical s2 p ≠ 0 ∧
    MemoryManager.virtual_to_physical (runMOps s2 ops2) p ≠ 0 ∧
    MemoryManager.virtual_to_physical
      (MemoryManager.free_virtual_page (runMOps s2 ops2) p) p = 0 ∧
    (∀ (s : MMState) (v q : Nat),
      MemoryManager.pageIndex v < s.page_table.length → q < 2 ^ 52 →
      (MemoryManager.map_page s v q).1 = true ∧
      MemoryManager.virtual_to_physical (MemoryManager.map_page s v q).2 v =
        q / PAGE_SIZE * PAGE_SIZE + v % PAGE_SIZE) := by
  have hinv1 : MInv (runMOps (MemoryManager.initMM base n) ops1) :=
    minv_runMOps ops1 _ (minv_initMM base n)
  have he1 := runMOps_memEquiv ops1 (MemoryManager.initMM base n)
  have hbase1 : PAGE_SIZE ≤ (runMOps (MemoryManager.initMM base n) ops1).memory_pool := by
    rw [he1.1]
    exact hbase
  have hbound1 : (runMOps (MemoryManager.initMM base n) ops1).memory_pool +
      (runMOps (MemoryManager.initMM base n) ops1).pool_size + PAGE_SIZE < 2 ^ 52 := by
    rw [he1.1, he1.2.1]
    exact hbound
  have hp1 : (MemoryManager.allocate_virtual_page
      (runMOps (MemoryManager.initMM base n) ops1)).1 = some p := by rw [halloc]
  have hs2 : s2 = (MemoryManager.allocate_virtual_page
      (runMOps (MemoryManager.initMM base n) ops1)).2 := by rw [halloc]
  rw [MemoryManager.allocate_virtual_page_eq] at hp1
  cases hr : (MemoryManager.allocate_aligned (runMOps (MemoryManager.initMM base n) ops1)
      PAGE_SIZE PAGE_SIZE).1 with
  | none =>
      rw [hr] at hp1
      exact Option.noConfusion hp1
  | some page =>
      rw [hr] at hp1
      have hpv : (MemoryManager.allocate_aligned (runMOps (MemoryManager.initMM base n) ops1)
          PAGE_SIZE PAGE_SIZE).2.next_virtual_address = p := Option.some.inj hp1
      have hnv := (MemoryManager.allocate_aligned_pages_fixed
        (runMOps (MemoryManager.initMM base n) ops1) PAGE_SIZE PAGE_SIZE).2
      have hpeq : p = (runMOps (MemoryManager.initMM base n) ops1).next_virtual_address := by
        rw [← hpv, hnv]
      have hgood2 : GoodAt p s2 := by
        rw [hs2, hpeq]
        exact goodAt_pageAlloc_self _ hbase1 hbound1 hinv1
          (by rw [← hpeq]; exact hidx) page hr
      have hdvd : PAGE_SIZE ∣ p := by
        rw [hpeq]
        exact hinv1.1.2.1
      have hplt : p < U64 := by
        rw [hpeq]
        exact hinv1.1.2.2
      have hinv2 : MInv s2 := by
        rw [hs2]
        exact minv_applyMOp _ .pageAlloc hinv1
      have he2 : MemEquiv s2 (runMOps (MemoryManager.initMM base n) ops1) := by
        rw [hs2]
        exact memEquiv_applyMOp _ .pageAlloc
      have hbase2 : PAGE_SIZE ≤ s2.memory_pool := by
        rw [he2.1]
        exact hbase1
      have hbound2 : s2.memory_pool + s2.pool_size + PAGE_SIZE < 2 ^ 52 := by
        rw [he2.1, he2.2.1]
        exact hbound1
      have hgoodrun : GoodAt p (runMOps s2 ops2) :=
        goodAt_runMOps p ops2 s2 hbase2 hbound2 hinv2 hdvd hplt hben hgood2
      exact ⟨v2p_ne_zero_of_goodAt p s2 hgood2,
        v2p_ne_zero_of_goodAt p _ hgoodrun,
        v2p_free_self _ p hgoodrun,
        fun s v q hvlt hq => map_roundtrip s v q hvlt hq⟩

/-- C6 witness: concrete run of the amended theorem - a 16KB arena at
65536, one allocated virtual page (the virtual base), one interleaved
8-byte allocation, then the free. -/
theorem c6_page_translation_amended_witness :
    MemoryManager.virtual_to_physical
      (MemoryManager.allocate_virtual_page (runMOps (MemoryManager.initMM 65536 16384) [])).2
      16777216 ≠ 0 ∧
    MemoryManager.virtual_to_physical
      (runMOps (MemoryManager.allocate_virtual_page
        (runMOps (MemoryManager.initMM 65536 16384) [])).2 [.alloc 8]) 16777216 ≠ 0 ∧
    MemoryManager.virtual_to_physical
      (MemoryManager.free_virtual_page
        (runMOps (MemoryManager.allocate_virtual_page
          (runMOps (MemoryManager.initMM 65536 16384) [])).2 [.alloc 8]) 16777216) 16777216 = 0 ∧
    (∀ (s : MMState) (v q : Nat),
      MemoryManager.pageIndex v < s.page_table.length → q < 2 ^ 52 →
      (MemoryManager.map_page s v q).1 = true ∧
      MemoryManager.virtual_to_physical (MemoryManager.map_page s v q).2 v =
        q / PAGE_SIZE * PAGE_SIZE + v % PAGE_SIZE) := by
  refine c6_page_translation_amended 65536 16384 [] [.alloc 8] 16777216 _
    (by decide) (by decide) (by decide) ?_ (by decide)
  have h1 : (MemoryManager.allocate_virtual_page
      (runMOps (MemoryManager.initMM 65536 16384) [])).1 = some 16777216 := by decide
  rw [← h1]
